import Mathlib

/-!
Verification development for the `evolimo` domain-model compiler
(`domain-model/src/compiler.ts`, `domain-model/src/builder.ts`,
`domain-model/src/types.ts`).

The compiler flattens user-defined dynamics rules (expression ASTs) into a
linear JSON IR: it collects state variables and genetic parameters, performs
structural common-subexpression elimination keyed on a JSON serialization of
each subtree, emits one operation per AST node, closes every rule with a
terminal assignment, adds pass-through assignments for unwritten state vars,
and validates initialization coverage.

Modelling conventions:
* JS numbers are modelled as `Rat` where they are carried opaquely
  (constants, distribution parameters) and as `Int` where the code treats
  them as integral (dims, ranges, slice bounds).
* A JS `Map` is modelled as an association list where `set` prepends and
  `get` takes the first match; the compiler only observes a map through
  `get`, for which this is observably identical to overwrite-in-place.
* A JS `Set` of strings is modelled as an insertion-ordered duplicate-free
  list (`addSet`), matching `Set` iteration order.
* The `stencil` kernel is a host-language closure.  The compiler observes it
  only through `kernel.toString()` (for the CSE key) and through the single
  application `kernel(centerExpr, neighborExpr)` where both arguments are
  the fixed `ref_aux` placeholders `center` and `neighbor`
  (compiler.ts:206-210 and compiler.ts:407-409).  We therefore model a
  kernel as the pair of its source string and that applied body.
* JS string comparison (`Array.prototype.sort` on strings) is modelled as
  lexicographic comparison of the character lists.
-/

namespace Evolimo

/-! ### Strings: JS-style ordering and sorting -/

/-- JS string order, modelled as lexicographic order on character lists
(`Array.prototype.sort` default comparison). -/
def strLe (a b : String) : Prop := a.data ≤ b.data

instance : DecidableRel strLe := fun a b => by
  unfold strLe; infer_instance

instance : IsTotal String strLe := ⟨fun a b => le_total a.data b.data⟩

instance : IsTrans String strLe := ⟨fun _ _ _ h1 h2 => le_trans h1 h2⟩

instance : IsAntisymm String strLe :=
  ⟨fun a b h1 h2 => by
    cases a; cases b
    simp only [strLe] at h1 h2
    simp_all [le_antisymm h1 h2]⟩

/-- The `Array.from(set).sort()` / `Array.from(paramSet).sort()`:
sort a list of strings lexicographically. -/
def sortStrings (l : List String) : List String :=
  l.insertionSort strLe

/-- The `prefixB p s`: does `s` start with the string `p`?  (Char-list model of a
JS `startsWith`-style check; used only in statements about compiler-generated
names, not in the compiler itself.) -/
def prefixB (p s : String) : Bool := p.data.isPrefixOf s.data

/-- A compiler-generated intermediate name: `temp_<k>` or `p_<id>`. -/
def internalName (s : String) : Bool := prefixB "temp_" s || prefixB "p_" s

/-! ### The expression AST (types.ts `Expression`)

The seven binary arithmetic/comparison kinds and the three elementwise unary
kinds are straight-line isomorphic fields of the TS tagged union; the
compiler handles them by shared switch cases (compiler.ts:88-105 and
161-172), so we group them by a kind enum. -/

/-- Binary operators: `add | sub | mul | div | lt | gt | ge`. -/
inductive BinKind where
  | add | sub | mul | div | lt | gt | ge
deriving DecidableEq, Repr

/-- Elementwise unary operators: `sqrt | relu | neg`. -/
inductive UnKind where
  | sqrt | relu | neg
deriving DecidableEq, Repr

mutual

/-- Model of `types.ts` `Expression` (the full variant set used by compiler.ts). -/
inductive Expression where
  | ref_state (id : String)
  | ref_param (id : String) (group : String)
  | ref_aux (id : String)
  | const (value : Rat)
  | binop (bk : BinKind) (left : Expression) (right : Expression)
  | whereOp (cond : Expression) (trueVal : Expression) (falseVal : Expression)
  | unop (uk : UnKind) (value : Expression)
  | transpose (value : Expression) (dim0 : Int) (dim1 : Int)
  | sum (value : Expression) (dim : Int) (keepdim : Bool)
  | grid_scatter (value : Expression) (x : Expression) (y : Expression)
  | stencil (value : Expression) (range : Int) (kernel : KernelOpt)
  | grid_gather (value : Expression) (x : Expression) (y : Expression)
  | cat (values : ExprList) (dim : Int)
  | slice (value : Expression) (dim : Int) (start : Int) (len : Int)

/-- The optional stencil kernel: absent (as produced by
`ops.stencil(value, range)` in builder.ts:39), or a host closure modelled by
its `toString()` source and its application to the `center`/`neighbor`
`ref_aux` placeholders. -/
inductive KernelOpt where
  | none
  | some (src : String) (body : Expression)

/-- The `Expression[]` as used by the `cat` node. -/
inductive ExprList where
  | nil
  | cons (head : Expression) (tail : ExprList)

end

/-- Membership in an `ExprList`. -/
def ExprList.toList : ExprList → List Expression
  | .nil => []
  | .cons e t => e :: t.toList

/-! ### IR operations (types.ts `Operation`) -/

/-- The `op` string of an emitted IR operation.  (The emitted stencil
sentinel reuses `'ref_aux'`, compiler.ts:230.) -/
inductive OpKind where
  | add | sub | mul | div | lt | gt | ge
  | whereK | sqrt | relu | neg
  | const | ref_state | ref_param | ref_aux
  | transpose | sum | grid_scatter | stencil | grid_gather | cat | slice
deriving DecidableEq, Repr

/-- The `OpKind` of a binary expression kind. -/
def BinKind.toOpKind : BinKind → OpKind
  | .add => .add | .sub => .sub | .mul => .mul | .div => .div
  | .lt => .lt | .gt => .gt | .ge => .ge

/-- The `OpKind` of a unary expression kind. -/
def UnKind.toOpKind : UnKind → OpKind
  | .sqrt => .sqrt | .relu => .relu | .neg => .neg

/-- Model of `types.ts` `Operation`: a single SSA-style assignment of the IR.
Optional fields default to `none`/`[]` exactly when the compiler's object
literal omits them. -/
inductive Operation where
  | mk (target : String) (op : OpKind) (args : List String)
       (value : Option Rat) (param_info : Option (String × String))
       (dim : Option Int) (keepdim : Option Bool)
       (dim0 : Option Int) (dim1 : Option Int)
       (stencil_range : Option Int) (start : Option Int) (len : Option Int)
       (kernel_operations : Option (List Operation))

/-- The `target` field. -/
def Operation.target : Operation → String
  | .mk t _ _ _ _ _ _ _ _ _ _ _ _ => t

/-- The `op` field. -/
def Operation.op : Operation → OpKind
  | .mk _ o _ _ _ _ _ _ _ _ _ _ _ => o

/-- The `args` field. -/
def Operation.args : Operation → List String
  | .mk _ _ a _ _ _ _ _ _ _ _ _ _ => a

/-- An operation with only `target`, `op`, `args` (all other fields absent),
e.g. the terminal assignment `{target, op:'add', args:[v]}` of
compiler.ts:441-445. -/
def mkOp (target : String) (op : OpKind) (args : List String) : Operation :=
  .mk target op args none none none none none none none none none none

/-! ### Definition bundle types (types.ts) -/

/-- Parameter-group activation. -/
inductive Activation where
  | softmax | tanh | sigmoid | none
deriving DecidableEq, Repr

/-- Model of `types.ts` `GroupConfig`. -/
structure GroupConfig where
  name : String
  activation : Activation

/-- Model of `types.ts` `ParameterGroups`: exactly the two declared groups. -/
structure ParameterGroups where
  ATTR : GroupConfig
  PHYS : GroupConfig

/-- Model of `types.ts` `DynamicsRule`. -/
structure DynamicsRule where
  target_state : String
  expr : Expression

/-- Model of `types.ts` `Distribution`. -/
inductive Distribution where
  | const (value : Rat)
  | uniform (low : Rat) (high : Rat)
  | normal (mean : Rat) (std : Rat)

/-- Model of `types.ts` `InitializationIR` (the `state` record modelled as an
association list of its own keys). -/
structure InitializationIR where
  state : List (String × Distribution)
  genes : Distribution

/-- Model of `types.ts` `BoundaryType`. -/
inductive BoundaryType where
  | torus | clamp | none

/-- Model of `types.ts` `BoundaryCondition`. -/
structure BoundaryCondition where
  target_state : String
  kind : BoundaryType
  range : Rat × Rat

/-- Model of `types.ts` `GridConfig`. -/
structure GridConfig where
  width : Int
  height : Int
  capacity : Int
  cell_size : Rat × Rat

/-- The `SIM_CONSTANTS` record carried through into the IR. -/
structure SimConstants where
  n_agents : Int
  gene_len : Int
  hidden_len : Int

/-- Per-group output of the IR (`groups[name]`). -/
structure GroupIR where
  activation : Activation
  params : List String

/-- Model of `types.ts` `OutputIR`. -/
structure OutputIR where
  state_vars : List String
  constants : SimConstants
  groups : List (String × GroupIR)
  boundary_conditions : List BoundaryCondition
  grid_config : Option GridConfig
  initialization : InitializationIR
  operations : List Operation

/-! ### Small collection helpers (JS `Set` / `Map` / `in` models) -/

/-- JS `Set.add` on an insertion-ordered duplicate-free list. -/
def addSet (l : List String) (x : String) : List String :=
  if x ∈ l then l else l ++ [x]

/-- JS `Map.get` / property lookup on an association list (first match). -/
def getAssoc {α : Type} : List (String × α) → String → Option α
  | [], _ => Option.none
  | (k', v') :: t, k => if k' = k then Option.some v' else getAssoc t k

/-- JS `Map.set` / property assignment on an association list with unique
keys: replace in place, or append when absent. -/
def setAssoc {α : Type} : List (String × α) → String → α → List (String × α)
  | [], k, v => [(k, v)]
  | (k', v') :: t, k, v =>
      if k' = k then (k, v) :: t else (k', v') :: setAssoc t k v

/-! ### The CSE key: `JSON.stringify` of an expression (compiler.ts:32-44)

`JSON.stringify` serializes object fields in construction order (the order of
the builder literals in builder.ts) and **omits function-valued fields**, so
the serialization of any node that merely *contains* a stencil drops that
stencil's `kernel` closure.  Only when the stencil node itself is the root of
the key does the compiler splice in `kernel.toString()`
(compiler.ts:36-41). -/

/-- JSON string escaping for the characters that can occur in identifiers. -/
def jsonEscapeChar (c : Char) : String :=
  if c = '"' then "\\\""
  else if c = '\\' then "\\\\"
  else if c = '\n' then "\\n"
  else if c = '\t' then "\\t"
  else if c = '\r' then "\\r"
  else String.singleton c

/-- JSON string escaping. -/
def jsonEscape (s : String) : String :=
  String.join (s.data.map jsonEscapeChar)

/-- A JSON string literal. -/
def jstr (s : String) : String := "\"" ++ jsonEscape s ++ "\""

/-- A JSON `key:value` field. -/
def jfield (k : String) (v : String) : String := jstr k ++ ":" ++ v

/-- A JSON object from already-rendered fields. -/
def jobj (fields : List String) : String :=
  "\x7b" ++ String.intercalate "," fields ++ "\x7d"

/-- JSON booleans. -/
def jbool (b : Bool) : String := if b then "true" else "false"

/-- The `op` string of a binary kind. -/
def BinKind.str : BinKind → String
  | .add => "add" | .sub => "sub" | .mul => "mul" | .div => "div"
  | .lt => "lt" | .gt => "gt" | .ge => "ge"

/-- The `op` string of a unary kind. -/
def UnKind.str : UnKind → String
  | .sqrt => "sqrt" | .relu => "relu" | .neg => "neg"

mutual

/-- Model of `JSON.stringify(expr)`: field order follows the builder literals
(builder.ts); the `kernel` closure of any (nested) stencil node is omitted,
exactly as `JSON.stringify` drops function-valued fields. -/
def exprJson : Expression → String
  | .ref_state id => jobj [jfield "op" (jstr "ref_state"), jfield "id" (jstr id)]
  | .ref_param id group =>
      jobj [jfield "op" (jstr "ref_param"), jfield "id" (jstr id),
            jfield "group" (jstr group)]
  | .ref_aux id => jobj [jfield "op" (jstr "ref_aux"), jfield "id" (jstr id)]
  | .const v => jobj [jfield "op" (jstr "const"), jfield "value" (toString v)]
  | .binop bk l r =>
      jobj [jfield "op" (jstr bk.str), jfield "left" (exprJson l),
            jfield "right" (exprJson r)]
  | .whereOp c t f =>
      jobj [jfield "op" (jstr "where"), jfield "cond" (exprJson c),
            jfield "trueVal" (exprJson t), jfield "falseVal" (exprJson f)]
  | .unop uk v =>
      jobj [jfield "op" (jstr uk.str), jfield "value" (exprJson v)]
  | .transpose v d0 d1 =>
      jobj [jfield "op" (jstr "transpose"), jfield "value" (exprJson v),
            jfield "dim0" (toString d0), jfield "dim1" (toString d1)]
  | .sum v d k =>
      jobj [jfield "op" (jstr "sum"), jfield "value" (exprJson v),
            jfield "dim" (toString d), jfield "keepdim" (jbool k)]
  | .grid_scatter v x y =>
      jobj [jfield "op" (jstr "grid_scatter"), jfield "value" (exprJson v),
            jfield "x" (exprJson x), jfield "y" (exprJson y)]
  | .stencil v r _ =>
      jobj [jfield "op" (jstr "stencil"), jfield "value" (exprJson v),
            jfield "range" (toString r)]
  | .grid_gather v x y =>
      jobj [jfield "op" (jstr "grid_gather"), jfield "value" (exprJson v),
            jfield "x" (exprJson x), jfield "y" (exprJson y)]
  | .cat vs d =>
      jobj [jfield "op" (jstr "cat"),
            jfield "values" ("[" ++ String.intercalate "," (exprListJson vs) ++ "]"),
            jfield "dim" (toString d)]
  | .slice v d s l =>
      jobj [jfield "op" (jstr "slice"), jfield "value" (exprJson v),
            jfield "dim" (toString d), jfield "start" (toString s),
            jfield "len" (toString l)]

/-- Serialization of each element of a `cat` value list. -/
def exprListJson : ExprList → List String
  | .nil => []
  | .cons e t => exprJson e :: exprListJson t

end

/-- The stencil CSE key `JSON.stringify({...expr, kernel: expr.kernel.toString()})`
(compiler.ts:38-41): the node's own fields in construction order with the
kernel source spliced in. -/
def stencilKey (v : Expression) (r : Int) (src : String) : String :=
  jobj [jfield "op" (jstr "stencil"), jfield "value" (exprJson v),
        jfield "range" (toString r), jfield "kernel" (jstr src)]

/-! ### The compiler (compiler.ts) -/

/-- Compilation errors.  `typeError` models the JS `TypeError` thrown by
`expr.kernel.toString()` when the kernel is `undefined` (compiler.ts:40);
`missingKernel` is the dedicated error of compiler.ts:191-195;
`unknownGroup` is compiler.ts:373; `missingInit` is compiler.ts:462. -/
inductive CompileError where
  | typeError
  | missingKernel
  | unknownGroup (group : String)
  | missingInit (name : String)
deriving DecidableEq, Repr

/-- The `CompilerContext` (compiler.ts:20-24). -/
structure CompilerContext where
  tempVarCounter : Nat
  operations : List Operation
  varMap : List (String × String)

/-- The empty compiler context (compiler.ts:198-202, 305-309). -/
def emptyCtx : CompilerContext := ⟨0, [], []⟩

/-- The `getTempVar` (compiler.ts:27-29): the name it returns for the current
counter. -/
def tempName (ctx : CompilerContext) : String :=
  "temp_" ++ toString ctx.tempVarCounter

/-- Allocate a temp name, append one operation built from that name, and
record the CSE key: the common tail of every op-emitting case of
`compileExpression` (`getTempVar`; `ctx.operations.push`; `ctx.varMap.set`). -/
def emitTemp (ctx : CompilerContext) (key : String) (mk : String → Operation) :
    String × CompilerContext :=
  let name := tempName ctx
  (name, ⟨ctx.tempVarCounter + 1, ctx.operations ++ [mk name],
          (key, name) :: ctx.varMap⟩)

mutual

/-- The `compileExpression` (compiler.ts:32-293).  Each case first forms the CSE
key of the node (the source computes it once at the top of the function,
compiler.ts:35-44; it is a per-node pure value, so forming it per case is
behaviour-preserving), then consults `ctx.varMap`, then emits.  For a stencil
whose kernel is absent, forming the key itself throws (`expr.kernel.toString()`
on `undefined`), before the dedicated check at compiler.ts:191 can run. -/
def compileExpression : Expression → CompilerContext →
    Except CompileError (String × CompilerContext)
  | .ref_state id, ctx =>
      let key := exprJson (.ref_state id)
      match getAssoc ctx.varMap key with
      | Option.some existing => .ok (existing, ctx)
      | Option.none =>
          let v := "s_" ++ id
          .ok (v, ⟨ctx.tempVarCounter, ctx.operations, (key, v) :: ctx.varMap⟩)
  | .ref_param id group, ctx =>
      let key := exprJson (.ref_param id group)
      match getAssoc ctx.varMap key with
      | Option.some existing => .ok (existing, ctx)
      | Option.none =>
          let v := "p_" ++ id
          .ok (v, ⟨ctx.tempVarCounter,
                   ctx.operations ++
                     [.mk v .ref_param [] Option.none (Option.some (id, group))
                        Option.none Option.none Option.none Option.none
                        Option.none Option.none Option.none Option.none],
                   (key, v) :: ctx.varMap⟩)
  | .ref_aux id, ctx =>
      let key := exprJson (.ref_aux id)
      match getAssoc ctx.varMap key with
      | Option.some existing => .ok (existing, ctx)
      | Option.none =>
          .ok (id, ⟨ctx.tempVarCounter, ctx.operations, (key, id) :: ctx.varMap⟩)
  | .const val, ctx =>
      let key := exprJson (.const val)
      match getAssoc ctx.varMap key with
      | Option.some existing => .ok (existing, ctx)
      | Option.none =>
          .ok (emitTemp ctx key fun n =>
            .mk n .const [] (Option.some val) Option.none Option.none
              Option.none Option.none Option.none Option.none Option.none
              Option.none Option.none)
  | .binop bk l r, ctx =>
      let key := exprJson (.binop bk l r)
      match getAssoc ctx.varMap key with
      | Option.some existing => .ok (existing, ctx)
      | Option.none =>
          match compileExpression l ctx with
          | .error er => .error er
          | .ok (lv, ctx1) =>
              match compileExpression r ctx1 with
              | .error er => .error er
              | .ok (rv, ctx2) =>
                  .ok (emitTemp ctx2 key fun n => mkOp n bk.toOpKind [lv, rv])
  | .whereOp c t f, ctx =>
      let key := exprJson (.whereOp c t f)
      match getAssoc ctx.varMap key with
      | Option.some existing => .ok (existing, ctx)
      | Option.none =>
          match compileExpression c ctx with
          | .error er => .error er
          | .ok (cv, ctx1) =>
              match compileExpression t ctx1 with
              | .error er => .error er
              | .ok (tv, ctx2) =>
                  match compileExpression f ctx2 with
                  | .error er => .error er
                  | .ok (fv, ctx3) =>
                      .ok (emitTemp ctx3 key fun n => mkOp n .whereK [cv, tv, fv])
  | .unop uk v, ctx =>
      let key := exprJson (.unop uk v)
      match getAssoc ctx.varMap key with
      | Option.some existing => .ok (existing, ctx)
      | Option.none =>
          match compileExpression v ctx with
          | .error er => .error er
          | .ok (vv, ctx1) =>
              .ok (emitTemp ctx1 key fun n => mkOp n uk.toOpKind [vv])
  | .transpose v d0 d1, ctx =>
      let key := exprJson (.transpose v d0 d1)
      match getAssoc ctx.varMap key with
      | Option.some existing => .ok (existing, ctx)
      | Option.none =>
          match compileExpression v ctx with
          | .error er => .error er
          | .ok (vv, ctx1) =>
              .ok (emitTemp ctx1 key fun n =>
                .mk n .transpose [vv] Option.none Option.none Option.none
                  Option.none (Option.some d0) (Option.some d1) Option.none
                  Option.none Option.none Option.none)
  | .sum v d k, ctx =>
      let key := exprJson (.sum v d k)
      match getAssoc ctx.varMap key with
      | Option.some existing => .ok (existing, ctx)
      | Option.none =>
          match compileExpression v ctx with
          | .error er => .error er
          | .ok (vv, ctx1) =>
              .ok (emitTemp ctx1 key fun n =>
                .mk n .sum [vv] Option.none Option.none (Option.some d)
                  (Option.some k) Option.none Option.none Option.none
                  Option.none Option.none Option.none)
  | .grid_scatter v x y, ctx =>
      let key := exprJson (.grid_scatter v x y)
      match getAssoc ctx.varMap key with
      | Option.some existing => .ok (existing, ctx)
      | Option.none =>
          match compileExpression v ctx with
          | .error er => .error er
          | .ok (vv, ctx1) =>
              match compileExpression x ctx1 with
              | .error er => .error er
              | .ok (xv, ctx2) =>
                  match compileExpression y ctx2 with
                  | .error er => .error er
                  | .ok (yv, ctx3) =>
                      .ok (emitTemp ctx3 key fun n =>
                        mkOp n .grid_scatter [vv, xv, yv])
  | .stencil v r k, ctx =>
      match k with
      | .none =>
          -- compiler.ts:40: the CSE key stringifies `expr.kernel`; with the
          -- kernel `undefined`, `expr.kernel.toString()` throws a TypeError
          -- here, before the lookup and before compiler.ts:191.
          .error .typeError
      | .some src body =>
          let key := stencilKey v r src
          match getAssoc ctx.varMap key with
          | Option.some existing => .ok (existing, ctx)
          | Option.none =>
              match compileExpression v ctx with
              | .error er => .error er
              | .ok (vv, ctx1) =>
                  -- compiler.ts:191 `if (!expr.kernel) throw ...` cannot
                  -- fire: the kernel is present in this branch.
                  -- compiler.ts:198-213: isolated context, kernel applied to
                  -- the ref_aux `center`/`neighbor` placeholders (= `body`).
                  match compileExpression body emptyCtx with
                  | .error er => .error er
                  | .ok (kv, kctx) =>
                      let kops := kctx.operations ++
                        [mkOp "kernel_output" .ref_aux [kv]]
                      .ok (emitTemp ctx1 key fun n =>
                        .mk n .stencil [vv] Option.none Option.none
                          Option.none Option.none Option.none Option.none
                          (Option.some r) Option.none Option.none
                          (Option.some kops))
  | .grid_gather v x y, ctx =>
      let key := exprJson (.grid_gather v x y)
      match getAssoc ctx.varMap key with
      | Option.some existing => .ok (existing, ctx)
      | Option.none =>
          match compileExpression v ctx with
          | .error er => .error er
          | .ok (vv, ctx1) =>
              match compileExpression x ctx1 with
              | .error er => .error er
              | .ok (xv, ctx2) =>
                  match compileExpression y ctx2 with
                  | .error er => .error er
                  | .ok (yv, ctx3) =>
                      .ok (emitTemp ctx3 key fun n =>
                        mkOp n .grid_gather [vv, xv, yv])
  | .cat vs d, ctx =>
      let key := exprJson (.cat vs d)
      match getAssoc ctx.varMap key with
      | Option.some existing => .ok (existing, ctx)
      | Option.none =>
          match compileExprList vs ctx with
          | .error er => .error er
          | .ok (avs, ctx1) =>
              .ok (emitTemp ctx1 key fun n =>
                .mk n .cat avs Option.none Option.none (Option.some d)
                  Option.none Option.none Option.none Option.none Option.none
                  Option.none Option.none)
  | .slice v d s l, ctx =>
      let key := exprJson (.slice v d s l)
      match getAssoc ctx.varMap key with
      | Option.some existing => .ok (existing, ctx)
      | Option.none =>
          match compileExpression v ctx with
          | .error er => .error er
          | .ok (vv, ctx1) =>
              .ok (emitTemp ctx1 key fun n =>
                .mk n .slice [vv] Option.none Option.none (Option.some d)
                  Option.none Option.none Option.none Option.none
                  (Option.some s) (Option.some l) Option.none)

/-- The `expr.values.map((v) => compileExpression(v, ctx))` (compiler.ts:261). -/
def compileExprList : ExprList → CompilerContext →
    Except CompileError (List String × CompilerContext)
  | .nil, ctx => .ok ([], ctx)
  | .cons e t, ctx =>
      match compileExpression e ctx with
      | .error er => .error er
      | .ok (v, ctx1) =>
          match compileExprList t ctx1 with
          | .error er => .error er
          | .ok (vs, ctx2) => .ok (v :: vs, ctx2)

end

/-! ### State-variable collection (compiler.ts:315-343)

The source walks the tree by *property presence*: it recurses through
`left`/`right`, then through `value`, `x` and `y` when present.  A `where`
node exposes `cond`/`trueVal`/`falseVal` and a `cat` node exposes `values`
(plural), so neither is traversed; a stencil's kernel closure is likewise
never entered. -/

/-- The `collectStates` (compiler.ts:315-337), accumulator-passing. -/
def collectStates : Expression → List String → List String
  | .ref_state id, acc => addSet acc id
  | .ref_param _ _, acc => acc
  | .ref_aux _, acc => acc
  | .const _, acc => acc
  | .binop _ l r, acc => collectStates r (collectStates l acc)
  | .whereOp _ _ _, acc => acc   -- no `left`/`right`/`value`/`x`/`y` field
  | .unop _ v, acc => collectStates v acc
  | .transpose v _ _, acc => collectStates v acc
  | .sum v _ _, acc => collectStates v acc
  | .grid_scatter v x y, acc => collectStates y (collectStates x (collectStates v acc))
  | .stencil v _ _, acc => collectStates v acc   -- kernel closure not entered
  | .grid_gather v x y, acc => collectStates y (collectStates x (collectStates v acc))
  | .cat _ _, acc => acc         -- field is `values`, not `value`
  | .slice v _ _ _, acc => collectStates v acc

/-- The rule loop of compiler.ts:339-343: returns
`(stateVarSet, updatedStates)`. -/
def collectRulesLoop : List DynamicsRule → List String → List String →
    List String × List String
  | [], sset, uset => (sset, uset)
  | r :: rs, sset, uset =>
      collectRulesLoop rs (collectStates r.expr (addSet sset r.target_state))
        (addSet uset r.target_state)

/-- First ordering loop (compiler.ts:347-349): entries of `STATE_VAR_ORDER`
that are in the collected set, in declared order. -/
def orderLoop1 (stateVarOrder : List String) (sset : List String) : List String :=
  stateVarOrder.filter (fun name => name ∈ sset)

/-- Second ordering loop (compiler.ts:350-352): append each sorted collected
name not already placed. -/
def orderLoop2 : List String → List String → List String
  | [], ordered => ordered
  | n :: t, ordered =>
      if n ∈ ordered then orderLoop2 t ordered else orderLoop2 t (ordered ++ [n])

/-- The emitted `state_vars` (compiler.ts:311-353) as a function of the rules
and `STATE_VAR_ORDER`. -/
def computeStateVars (rules : List DynamicsRule) (stateVarOrder : List String) :
    List String :=
  let sset := (collectRulesLoop rules [] []).1
  orderLoop2 (sortStrings sset) (orderLoop1 stateVarOrder sset)

/-! ### Parameter collection (compiler.ts:368-435) -/

/-- Per-group collected parameter sets (`paramsPerGroup`). -/
abbrev ParamsAcc := List (String × List String)

mutual

/-- The `collectParams` (compiler.ts:368-423): full structural walk, including
`where` branches, `cat` elements, and the synthetic kernel expansion
`kernel(center, neighbor)` of a stencil that carries a kernel. -/
def collectParams : Expression → ParamsAcc → Except CompileError ParamsAcc
  | .ref_param id group, acc =>
      match getAssoc acc group with
      | Option.none => .error (.unknownGroup group)
      | Option.some s => .ok (setAssoc acc group (addSet s id))
  | .ref_state _, acc => .ok acc
  | .ref_aux _, acc => .ok acc
  | .const _, acc => .ok acc
  | .binop _ l r, acc =>
      match collectParams l acc with
      | .error er => .error er
      | .ok acc1 => collectParams r acc1
  | .whereOp c t f, acc =>
      match collectParams c acc with
      | .error er => .error er
      | .ok acc1 =>
          match collectParams t acc1 with
          | .error er => .error er
          | .ok acc2 => collectParams f acc2
  | .unop _ v, acc => collectParams v acc
  | .transpose v _ _, acc => collectParams v acc
  | .sum v _ _, acc => collectParams v acc
  | .slice v _ _ _, acc => collectParams v acc
  | .stencil v _ k, acc =>
      match collectParams v acc with
      | .error er => .error er
      | .ok acc1 => collectParamsK k acc1
  | .grid_scatter v x y, acc =>
      match collectParams v acc with
      | .error er => .error er
      | .ok acc1 =>
          match collectParams x acc1 with
          | .error er => .error er
          | .ok acc2 => collectParams y acc2
  | .grid_gather v x y, acc =>
      match collectParams v acc with
      | .error er => .error er
      | .ok acc1 =>
          match collectParams x acc1 with
          | .error er => .error er
          | .ok acc2 => collectParams y acc2
  | .cat vs _, acc => collectParamsList vs acc

/-- The kernel descent of compiler.ts:405-411: when a stencil carries a
kernel, also collect from `kernel(center, neighbor)` (the stored body). -/
def collectParamsK : KernelOpt → ParamsAcc → Except CompileError ParamsAcc
  | .none, acc => .ok acc
  | .some _ body, acc => collectParams body acc

/-- The `expr.values.forEach(collectParams)` (compiler.ts:420). -/
def collectParamsList : ExprList → ParamsAcc → Except CompileError ParamsAcc
  | .nil, acc => .ok acc
  | .cons e t, acc =>
      match collectParams e acc with
      | .error er => .error er
      | .ok acc1 => collectParamsList t acc1

end

/-- The rule loop of compiler.ts:425-427. -/
def collectParamsRules : List DynamicsRule → ParamsAcc →
    Except CompileError ParamsAcc
  | [], acc => .ok acc
  | r :: rs, acc =>
      match collectParams r.expr acc with
      | .error er => .error er
      | .ok acc1 => collectParamsRules rs acc1

/-- The sorting loop of compiler.ts:430-435: write each group's sorted
parameter list into `groups`. -/
def sortParamsLoop : ParamsAcc → List (String × GroupIR) → List (String × GroupIR)
  | [], groups => groups
  | (gname, pset) :: t, groups =>
      match getAssoc groups gname with
      | Option.some gir =>
          sortParamsLoop t (setAssoc groups gname ⟨gir.activation, sortStrings pset⟩)
      | Option.none => sortParamsLoop t groups

/-! ### Rule compilation, pass-through, initialization check
(compiler.ts:437-474) -/

/-- The rule-compilation loop (compiler.ts:437-446): compile each rule's
expression and push the terminal assignment
`{target: rule.target_state, op:'add', args:[resultVar]}`. -/
def compileRulesLoop : List DynamicsRule → CompilerContext →
    Except CompileError CompilerContext
  | [], ctx => .ok ctx
  | r :: rs, ctx =>
      match compileExpression r.expr ctx with
      | .error er => .error er
      | .ok (v, ctx1) =>
          compileRulesLoop rs
            ⟨ctx1.tempVarCounter,
             ctx1.operations ++ [mkOp r.target_state .add [v]],
             ctx1.varMap⟩

/-- The pass-through loop (compiler.ts:448-457): for every state var not
updated by a rule, compile `{op:'ref_state', id:name}` and assign it back. -/
def passThroughLoop : List String → List String → CompilerContext →
    Except CompileError CompilerContext
  | [], _, ctx => .ok ctx
  | n :: t, uset, ctx =>
      if n ∈ uset then passThroughLoop t uset ctx
      else
        match compileExpression (.ref_state n) ctx with
        | .error er => .error er
        | .ok (v, ctx1) =>
            passThroughLoop t uset
              ⟨ctx1.tempVarCounter,
               ctx1.operations ++ [mkOp n .add [v]],
               ctx1.varMap⟩

/-- The initialization-coverage loop (compiler.ts:459-464): the first state
var, in `state_vars` order, with no key in `INITIALIZATION.state`. -/
def firstMissingInit : List String → List (String × Distribution) → Option String
  | [], _ => Option.none
  | n :: t, st =>
      match getAssoc st n with
      | Option.some _ => firstMissingInit t st
      | Option.none => Option.some n

/-- The `compileRules` (compiler.ts:296-475). -/
def compileRules (rules : List DynamicsRule) (stateVarOrder : List String)
    (simConstants : SimConstants) (parameterGroups : ParameterGroups)
    (boundaryConditions : List BoundaryCondition)
    (initialization : InitializationIR) (gridConfig : Option GridConfig) :
    Except CompileError OutputIR :=
  let sets := collectRulesLoop rules [] []
  let stateVars := orderLoop2 (sortStrings sets.1) (orderLoop1 stateVarOrder sets.1)
  -- compiler.ts:356-365: Object.entries iterates ATTR then PHYS.
  let groups0 : List (String × GroupIR) :=
    setAssoc (setAssoc [] parameterGroups.ATTR.name
        ⟨parameterGroups.ATTR.activation, []⟩)
      parameterGroups.PHYS.name ⟨parameterGroups.PHYS.activation, []⟩
  let pp0 : ParamsAcc :=
    setAssoc (setAssoc [] parameterGroups.ATTR.name [])
      parameterGroups.PHYS.name []
  match collectParamsRules rules pp0 with
  | .error er => .error er
  | .ok pp =>
      let groups1 := sortParamsLoop pp groups0
      match compileRulesLoop rules emptyCtx with
      | .error er => .error er
      | .ok ctx1 =>
          match passThroughLoop stateVars sets.2 ctx1 with
          | .error er => .error er
          | .ok ctx2 =>
              match firstMissingInit stateVars initialization.state with
              | Option.some name => .error (.missingInit name)
              | Option.none =>
                  .ok ⟨stateVars, simConstants, groups1, boundaryConditions,
                       gridConfig, initialization, ctx2.operations⟩

/-! ### The public expression builder (builder.ts `ops`) -/

namespace ops

/-- Builder `ops.state` (builder.ts:7). -/
def state (id : String) : Expression := .ref_state id

/-- Builder `ops.param` (builder.ts:8). -/
def param (id : String) (group : String) : Expression := .ref_param id group

/-- Builder `ops.aux` (builder.ts:9). -/
def aux (id : String) : Expression := .ref_aux id

/-- Builder `ops.const` (builder.ts:10). -/
def const (value : Rat) : Expression := .const value

/-- Builder `ops.add` (builder.ts:12). -/
def add (left right : Expression) : Expression := .binop .add left right

/-- Builder `ops.sub` (builder.ts:13). -/
def sub (left right : Expression) : Expression := .binop .sub left right

/-- Builder `ops.mul` (builder.ts:14). -/
def mul (left right : Expression) : Expression := .binop .mul left right

/-- Builder `ops.div` (builder.ts:15). -/
def div (left right : Expression) : Expression := .binop .div left right

/-- Builder `ops.sqrt` (builder.ts:16). -/
def sqrt (value : Expression) : Expression := .unop .sqrt value

/-- Builder `ops.relu` (builder.ts:29). -/
def relu (value : Expression) : Expression := .unop .relu value

/-- Builder `ops.neg` (builder.ts:30). -/
def neg (value : Expression) : Expression := .unop .neg value

/-- Builder `ops.transpose` (builder.ts:17-22; the JS defaults are `dim0 = 0`,
`dim1 = 1`, passed explicitly here). -/
def transpose (value : Expression) (dim0 : Int) (dim1 : Int) :
    Expression := .transpose value dim0 dim1

/-- Builder `ops.sum` (builder.ts:23-28; the JS default `keepdim = true` is passed
explicitly here). -/
def sum (value : Expression) (dim : Int) (keepdim : Bool) :
    Expression := .sum value dim keepdim

/-- Builder `ops.grid_scatter` (builder.ts:33-38). -/
def grid_scatter (value x y : Expression) : Expression := .grid_scatter value x y

/-- Builder `ops.stencil` (builder.ts:39): note that the public builder takes **no
kernel argument**, so every stencil node it constructs has an absent
kernel. -/
def stencil (value : Expression) (range : Int) : Expression :=
  .stencil value range .none

/-- Builder `ops.grid_gather` (builder.ts:40-45). -/
def grid_gather (value x y : Expression) : Expression := .grid_gather value x y

/-- Builder `ops.cat` (builder.ts:48). -/
def cat (values : ExprList) (dim : Int) : Expression := .cat values dim

/-- Builder `ops.slice` (builder.ts:49-55). -/
def slice (value : Expression) (dim start len : Int) : Expression :=
  .slice value dim start len

/-- Builder `ops.lt` (builder.ts:58). -/
def lt (left right : Expression) : Expression := .binop .lt left right

/-- Builder `ops.gt` (builder.ts:59). -/
def gt (left right : Expression) : Expression := .binop .gt left right

/-- Builder `ops.ge` (builder.ts:60). -/
def ge (left right : Expression) : Expression := .binop .ge left right

/-- Builder `ops.where` (builder.ts:63-68). -/
def whereE (cond trueVal falseVal : Expression) : Expression :=
  .whereOp cond trueVal falseVal

end ops

/-! ### Spec-side reference collectors

These definitions follow the specification's words (spec §4.2 step 1:
"walk every rule's `target_state` and every `ref_state` in its expression"),
for comparison against what the compiler's `collectStates` actually
gathers. -/

mutual

/-- All `ref_state` ids occurring anywhere in an expression, including
`where` branches, `cat` elements, and stencil kernel bodies. -/
def refStatesFull : Expression → List String
  | .ref_state id => [id]
  | .ref_param _ _ => []
  | .ref_aux _ => []
  | .const _ => []
  | .binop _ l r => refStatesFull l ++ refStatesFull r
  | .whereOp c t f => refStatesFull c ++ refStatesFull t ++ refStatesFull f
  | .unop _ v => refStatesFull v
  | .transpose v _ _ => refStatesFull v
  | .sum v _ _ => refStatesFull v
  | .grid_scatter v x y => refStatesFull v ++ refStatesFull x ++ refStatesFull y
  | .stencil v _ k => refStatesFull v ++ kernelRefStates k
  | .grid_gather v x y => refStatesFull v ++ refStatesFull x ++ refStatesFull y
  | .cat vs _ => refStatesListFull vs
  | .slice v _ _ _ => refStatesFull v

/-- The `ref_state` ids of a kernel body, when present. -/
def kernelRefStates : KernelOpt → List String
  | .none => []
  | .some _ body => refStatesFull body

/-- The `ref_state` ids of each element of a `cat` list. -/
def refStatesListFull : ExprList → List String
  | .nil => []
  | .cons e t => refStatesFull e ++ refStatesListFull t

end

/-! ### Shared concrete instances used by witnesses and counterexamples -/

instance : Inhabited OutputIR :=
  ⟨⟨[], ⟨0, 0, 0⟩, [], [], Option.none, ⟨[], .const 0⟩, []⟩⟩

/-- The `PARAMETER_GROUPS` shape used by every definition module in the
repository. -/
def stdGroups : ParameterGroups :=
  ⟨⟨"attributes", .softmax⟩, ⟨"physics", .tanh⟩⟩

/-- A small `SIM_CONSTANTS`. -/
def stdConsts : SimConstants := ⟨100, 32, 64⟩

/-! ### Lemmas: set/assoc helpers -/

theorem addSet_mem {l : List String} {x y : String} :
    y ∈ addSet l x ↔ y ∈ l ∨ y = x := by
  unfold addSet
  split
  · constructor
    · exact Or.inl
    · rintro (hy | rfl)
      · exact hy
      · assumption
  · simp

theorem addSet_nodup {l : List String} {x : String} (h : l.Nodup) :
    (addSet l x).Nodup := by
  unfold addSet
  split
  · exact h
  · exact List.nodup_append.mpr ⟨h, List.nodup_singleton x, by simp_all⟩

theorem addSet_sub {l : List String} {x y : String} (h : y ∈ l) :
    y ∈ addSet l x := addSet_mem.mpr (Or.inl h)

/-! ### Lemmas: state-variable collection and ordering (C1) -/

theorem collectStates_mono :
    (e : Expression) → ∀ acc y, y ∈ acc → y ∈ collectStates e acc
  | .ref_state _ => fun _ _ h => addSet_sub h
  | .ref_param _ _ => fun _ _ h => h
  | .ref_aux _ => fun _ _ h => h
  | .const _ => fun _ _ h => h
  | .binop _ l r => fun _ y h =>
      collectStates_mono r _ y (collectStates_mono l _ y h)
  | .whereOp _ _ _ => fun _ _ h => h
  | .unop _ v => fun _ y h => collectStates_mono v _ y h
  | .transpose v _ _ => fun _ y h => collectStates_mono v _ y h
  | .sum v _ _ => fun _ y h => collectStates_mono v _ y h
  | .grid_scatter v x' y' => fun _ y h =>
      collectStates_mono y' _ y (collectStates_mono x' _ y (collectStates_mono v _ y h))
  | .stencil v _ _ => fun _ y h => collectStates_mono v _ y h
  | .grid_gather v x' y' => fun _ y h =>
      collectStates_mono y' _ y (collectStates_mono x' _ y (collectStates_mono v _ y h))
  | .cat _ _ => fun _ _ h => h
  | .slice v _ _ _ => fun _ y h => collectStates_mono v _ y h

theorem collectStates_nodup :
    (e : Expression) → ∀ acc, acc.Nodup → (collectStates e acc).Nodup
  | .ref_state _ => fun _ h => addSet_nodup h
  | .ref_param _ _ => fun _ h => h
  | .ref_aux _ => fun _ h => h
  | .const _ => fun _ h => h
  | .binop _ l r => fun _ h =>
      collectStates_nodup r _ (collectStates_nodup l _ h)
  | .whereOp _ _ _ => fun _ h => h
  | .unop _ v => fun _ h => collectStates_nodup v _ h
  | .transpose v _ _ => fun _ h => collectStates_nodup v _ h
  | .sum v _ _ => fun _ h => collectStates_nodup v _ h
  | .grid_scatter v x' y' => fun _ h =>
      collectStates_nodup y' _ (collectStates_nodup x' _ (collectStates_nodup v _ h))
  | .stencil v _ _ => fun _ h => collectStates_nodup v _ h
  | .grid_gather v x' y' => fun _ h =>
      collectStates_nodup y' _ (collectStates_nodup x' _ (collectStates_nodup v _ h))
  | .cat _ _ => fun _ h => h
  | .slice v _ _ _ => fun _ h => collectStates_nodup v _ h

theorem collectRulesLoop_fst_nodup :
    (rules : List DynamicsRule) → ∀ s u, s.Nodup →
      ((collectRulesLoop rules s u).1).Nodup
  | [] => fun _ _ h => h
  | r :: rs => fun _ _ h =>
      collectRulesLoop_fst_nodup rs _ _
        (collectStates_nodup r.expr _ (addSet_nodup h))

theorem sortStrings_sorted (l : List String) : (sortStrings l).Sorted strLe :=
  List.sorted_insertionSort strLe l

theorem sortStrings_perm (l : List String) : (sortStrings l).Perm l :=
  List.perm_insertionSort strLe l

theorem sortStrings_nodup {l : List String} (h : l.Nodup) :
    (sortStrings l).Nodup := ((sortStrings_perm l).nodup_iff).mpr h

theorem sortStrings_eq_of_perm {l₁ l₂ : List String} (h : l₁.Perm l₂) :
    sortStrings l₁ = sortStrings l₂ :=
  List.eq_of_perm_of_sorted
    (((sortStrings_perm l₁).trans h).trans (sortStrings_perm l₂).symm)
    (sortStrings_sorted l₁) (sortStrings_sorted l₂)

theorem orderLoop2_spec :
    (src : List String) → ∀ pre, src.Nodup →
      orderLoop2 src pre = pre ++ src.filter (fun n => n ∉ pre)
  | [] => fun pre _ => by simp [orderLoop2]
  | n :: t => fun pre hnd => by
      have hn : n ∉ t := (List.nodup_cons.mp hnd).1
      have ht : t.Nodup := (List.nodup_cons.mp hnd).2
      by_cases h : n ∈ pre
      · rw [orderLoop2, if_pos h, orderLoop2_spec t pre ht]
        simp [h]
      · rw [orderLoop2, if_neg h, orderLoop2_spec t (pre ++ [n]) ht]
        have hf : ∀ y ∈ t, (decide (y ∉ pre ++ [n])) = (decide (y ∉ pre)) := by
          intro y hy
          have hyn : y ≠ n := fun hyx => hn (hyx ▸ hy)
          simp [hyn]
        rw [List.filter_congr hf]
        simp [h]

theorem computeStateVars_spec (rules : List DynamicsRule) (order : List String) :
    computeStateVars rules order =
      order.filter (fun n => n ∈ (collectRulesLoop rules [] []).1) ++
        sortStrings (((collectRulesLoop rules [] []).1).filter (fun n => n ∉ order)) := by
  set S := (collectRulesLoop rules [] []).1 with hS
  have hSnd : S.Nodup := collectRulesLoop_fst_nodup rules [] [] (List.nodup_nil)
  have h1 : computeStateVars rules order =
      orderLoop1 order S ++ (sortStrings S).filter (fun n => n ∉ orderLoop1 order S) := by
    rw [computeStateVars, ← hS]
    exact orderLoop2_spec _ _ (sortStrings_nodup hSnd)
  rw [h1, orderLoop1]
  congr 1
  have h2 : (sortStrings S).filter (fun n => n ∉ order.filter (fun m => m ∈ S)) =
      (sortStrings S).filter (fun n => n ∉ order) := by
    apply List.filter_congr
    intro y hy
    have hyS : y ∈ S := ((sortStrings_perm S).mem_iff).mp hy
    simp [List.mem_filter, hyS]
  rw [h2]
  apply List.eq_of_perm_of_sorted (r := strLe)
  · exact (((sortStrings_perm S).filter _).trans (sortStrings_perm _).symm)
  · exact (sortStrings_sorted S).filter _
  · exact sortStrings_sorted _

/-- C1: `state_vars` is exactly the entries of `STATE_VAR_ORDER` lying in the
collected referenced-state set, in declared order, followed by the remaining
collected state vars sorted lexicographically; and it is a pure function of
`STATE_VAR_ORDER` and that set, so two rule lists collecting the same set
(e.g. reordered rules) give the same `state_vars` and hence the same
state-var-to-column mapping. -/
theorem state_vars_order_spec (rules rules₂ : List DynamicsRule)
    (order : List String)
    (hset : ∀ n, n ∈ (collectRulesLoop rules [] []).1 ↔
      n ∈ (collectRulesLoop rules₂ [] []).1) :
    computeStateVars rules order =
      order.filter (fun n => n ∈ (collectRulesLoop rules [] []).1) ++
        sortStrings (((collectRulesLoop rules [] []).1).filter
          (fun n => n ∉ order)) ∧
    computeStateVars rules order = computeStateVars rules₂ order := by
  refine ⟨computeStateVars_spec rules order, ?_⟩
  rw [computeStateVars_spec rules order, computeStateVars_spec rules₂ order]
  have hnd₁ : ((collectRulesLoop rules [] []).1).Nodup :=
    collectRulesLoop_fst_nodup rules [] [] List.nodup_nil
  have hnd₂ : ((collectRulesLoop rules₂ [] []).1).Nodup :=
    collectRulesLoop_fst_nodup rules₂ [] [] List.nodup_nil
  congr 1
  · apply List.filter_congr
    intro y _
    simp [hset y]
  · apply sortStrings_eq_of_perm
    rw [List.perm_ext_iff_of_nodup (hnd₁.filter _) (hnd₂.filter _)]
    intro a
    simp [List.mem_filter, hset a]

/-! ### C1 witness -/

/-- Two rule lists in different orders collecting the same state set. -/
def rulesA : List DynamicsRule :=
  [⟨"vel", ops.add (ops.state "pos") (ops.state "vel")⟩,
   ⟨"acc", ops.state "zz"⟩]

/-- The `rulesA` reordered. -/
def rulesB : List DynamicsRule :=
  [⟨"acc", ops.state "zz"⟩,
   ⟨"vel", ops.add (ops.state "pos") (ops.state "vel")⟩]

/-- Witness for C1 at a concrete input: the ordering formula holds and the
reordered rules give the same `state_vars`. -/
theorem state_vars_order_spec_witness :
    computeStateVars rulesA ["vel", "energy"] =
      ["vel", "energy"].filter
        (fun n => n ∈ (collectRulesLoop rulesA [] []).1) ++
        sortStrings (((collectRulesLoop rulesA [] []).1).filter
          (fun n => n ∉ ["vel", "energy"])) ∧
    computeStateVars rulesA ["vel", "energy"] =
      computeStateVars rulesB ["vel", "energy"] :=
  state_vars_order_spec rulesA rulesB ["vel", "energy"]
    (by
      intro n
      rw [show (collectRulesLoop rulesA [] []).1 = ["vel", "pos", "acc", "zz"]
            from rfl,
          show (collectRulesLoop rulesB [] []).1 = ["acc", "zz", "vel", "pos"]
            from rfl]
      simp only [List.mem_cons, List.not_mem_nil, or_false]
      tauto)

/-! ### C2: state vars referenced only inside `where` branches are lost -/

/-- A rule whose expression references states `c`, `a`, `b` only inside a
`where` node (condition and both branches). -/
def c2Expr : Expression :=
  ops.whereE (ops.gt (ops.state "c") (ops.const 0))
    (ops.state "a") (ops.state "b")

/-- The single-rule bundle around `c2Expr`.  Initialization covers the one
state var the compiler will collect. -/
def c2Result : Except CompileError OutputIR :=
  compileRules [⟨"t", c2Expr⟩] ["t"] stdConsts stdGroups []
    ⟨[("t", .const 0)], .normal 0 1⟩ Option.none

/-- C2 (code bug): compilation of the `where`-rule bundle **succeeds** with
`state_vars = ["t"]`, even though `a`, `b`, `c` occur as `ref_state` nodes in
the rule's expression and the emitted operations read the column `s_a`.
`collectStates` (compiler.ts:315-337) walks only the properties
`left`/`right`/`value`/`x`/`y`, so it never descends into a `where` node's
`cond`/`trueVal`/`falseVal` (nor into a `cat` node's `values`), contradicting
the claim that every referenced state var appears in `state_vars`. -/
theorem collectStates_misses_where_branches :
    c2Result.map OutputIR.state_vars = .ok ["t"] ∧
    c2Result.map (fun ir => ir.operations.any (fun op => "s_a" ∈ op.args)) =
      .ok true ∧
    refStatesFull c2Expr = ["c", "a", "b"] ∧
    "a" ∉ (["t"] : List String) := by
  refine ⟨rfl, rfl, rfl, by decide⟩

/-! ### C8: a kernel-less stencil aborts compilation with a TypeError -/

/-- A rule containing a stencil built by the public builder
`ops.stencil(value, range)` — hence with no kernel. -/
def c8Rules : List DynamicsRule :=
  [⟨"x", ops.add (ops.state "x") (ops.stencil (ops.state "x") 1)⟩]

/-- C8 (code bug): compiling a bundle containing a kernel-less stencil
aborts, but with the JS `TypeError` thrown by `expr.kernel.toString()` while
forming the CSE key (compiler.ts:40) — not with the dedicated
missing-kernel `DefinitionError` of compiler.ts:191-195, which that throw
makes unreachable.  Initialization covers every state var, so the error
shown is the only failure. -/
theorem kernelless_stencil_type_error :
    compileRules c8Rules ["x"] stdConsts stdGroups []
      ⟨[("x", .const 0)], .normal 0 1⟩ Option.none = .error .typeError ∧
    (ops.stencil (ops.state "x") 1 = Expression.stencil (.ref_state "x") 1 .none) ∧
    CompileError.typeError ≠ CompileError.missingKernel := by
  refine ⟨rfl, rfl, by decide⟩

/-! ### Lemmas: shape of the operation stream emitted by `compileExpression`

Every operation emitted while flattening an expression targets a
compiler-generated intermediate name (`temp_<k>` from `getTempVar`, or
`p_<id>` from the `ref_param` case); the context's operation list only ever
grows by appending. -/

theorem prefixB_append (p s : String) : prefixB p (p ++ s) = true := by
  rw [prefixB, String.data_append, List.isPrefixOf_iff_prefix]
  exact List.prefix_append _ _

theorem internalName_tempName (ctx : CompilerContext) :
    internalName (tempName ctx) = true := by
  simp [internalName, tempName, prefixB_append]

theorem internalName_pName (id : String) :
    internalName ("p_" ++ id) = true := by
  simp [internalName, prefixB_append]

theorem Operation.target_mk (t : String) (o : OpKind) (a : List String)
    (f1 : Option Rat) (f2 : Option (String × String)) (f3 : Option Int)
    (f4 : Option Bool) (f5 f6 f7 f8 f9 : Option Int)
    (f10 : Option (List Operation)) :
    (Operation.mk t o a f1 f2 f3 f4 f5 f6 f7 f8 f9 f10).target = t := rfl

theorem Operation.target_mkOp (t : String) (o : OpKind) (a : List String) :
    (mkOp t o a).target = t := rfl

/-- All targets of a block are internal names. -/
def InternalBlock (Δ : List Operation) : Prop :=
  ∀ op ∈ Δ, internalName op.target = true

theorem internalBlock_nil : InternalBlock [] := by
  intro op hop; cases hop

theorem internalBlock_append {Δ1 Δ2 : List Operation}
    (h1 : InternalBlock Δ1) (h2 : InternalBlock Δ2) :
    InternalBlock (Δ1 ++ Δ2) := by
  intro op hop
  rcases List.mem_append.mp hop with h | h
  · exact h1 op h
  · exact h2 op h

theorem internalBlock_single {o : Operation}
    (h : internalName o.target = true) : InternalBlock [o] := by
  intro op hop
  rw [List.mem_singleton.mp hop]
  exact h

mutual

theorem compileExpression_ops_append :
    (e : Expression) → ∀ ctx v ctx',
      compileExpression e ctx = .ok (v, ctx') →
      ∃ Δ, ctx'.operations = ctx.operations ++ Δ ∧ InternalBlock Δ
  | .ref_state id => by
    intro ctx v ctx' h
    simp only [compileExpression] at h
    split at h
    · cases h
      exact ⟨[], by simp, internalBlock_nil⟩
    · simp only [Except.ok.injEq, Prod.mk.injEq] at h
      obtain ⟨_, rfl⟩ := h
      exact ⟨[], by simp, internalBlock_nil⟩
  | .ref_param id group => by
    intro ctx v ctx' h
    simp only [compileExpression] at h
    split at h
    · cases h
      exact ⟨[], by simp, internalBlock_nil⟩
    · simp only [Except.ok.injEq, Prod.mk.injEq] at h
      obtain ⟨_, rfl⟩ := h
      exact ⟨_, rfl, internalBlock_single (internalName_pName id)⟩
  | .ref_aux id => by
    intro ctx v ctx' h
    simp only [compileExpression] at h
    split at h
    · cases h
      exact ⟨[], by simp, internalBlock_nil⟩
    · simp only [Except.ok.injEq, Prod.mk.injEq] at h
      obtain ⟨_, rfl⟩ := h
      exact ⟨[], by simp, internalBlock_nil⟩
  | .const val => by
    intro ctx v ctx' h
    simp only [compileExpression] at h
    split at h
    · cases h
      exact ⟨[], by simp, internalBlock_nil⟩
    · simp only [emitTemp, Except.ok.injEq, Prod.mk.injEq] at h
      obtain ⟨_, rfl⟩ := h
      exact ⟨_, rfl, internalBlock_single (internalName_tempName ctx)⟩
  | .binop bk l r => by
    intro ctx v ctx' h
    simp only [compileExpression] at h
    split at h
    · cases h
      exact ⟨[], by simp, internalBlock_nil⟩
    · split at h
      · exact absurd h (by simp)
      · rename_i lv ctx1 heql
        split at h
        · exact absurd h (by simp)
        · rename_i rv ctx2 heqr
          simp only [emitTemp, Except.ok.injEq, Prod.mk.injEq] at h
          obtain ⟨_, rfl⟩ := h
          obtain ⟨Δ1, hΔ1, hi1⟩ := compileExpression_ops_append l ctx lv ctx1 heql
          obtain ⟨Δ2, hΔ2, hi2⟩ := compileExpression_ops_append r ctx1 rv ctx2 heqr
          refine ⟨Δ1 ++ (Δ2 ++ [mkOp (tempName ctx2) bk.toOpKind [lv, rv]]), ?_, ?_⟩
          · simp [hΔ2, hΔ1]
          · exact internalBlock_append hi1 (internalBlock_append hi2
              (internalBlock_single (internalName_tempName ctx2)))
  | .whereOp c t f => by
    intro ctx v ctx' h
    simp only [compileExpression] at h
    split at h
    · cases h
      exact ⟨[], by simp, internalBlock_nil⟩
    · split at h
      · exact absurd h (by simp)
      · rename_i cv ctx1 heqc
        split at h
        · exact absurd h (by simp)
        · rename_i tv ctx2 heqt
          split at h
          · exact absurd h (by simp)
          · rename_i fv ctx3 heqf
            simp only [emitTemp, Except.ok.injEq, Prod.mk.injEq] at h
            obtain ⟨_, rfl⟩ := h
            obtain ⟨Δ1, hΔ1, hi1⟩ := compileExpression_ops_append c ctx cv ctx1 heqc
            obtain ⟨Δ2, hΔ2, hi2⟩ := compileExpression_ops_append t ctx1 tv ctx2 heqt
            obtain ⟨Δ3, hΔ3, hi3⟩ := compileExpression_ops_append f ctx2 fv ctx3 heqf
            refine ⟨Δ1 ++ (Δ2 ++ (Δ3 ++ [mkOp (tempName ctx3) .whereK [cv, tv, fv]])), ?_, ?_⟩
            · simp [hΔ3, hΔ2, hΔ1]
            · exact internalBlock_append hi1 (internalBlock_append hi2
                (internalBlock_append hi3
                  (internalBlock_single (internalName_tempName ctx3))))
  | .unop uk val => by
    intro ctx v ctx' h
    simp only [compileExpression] at h
    split at h
    · cases h
      exact ⟨[], by simp, internalBlock_nil⟩
    · split at h
      · exact absurd h (by simp)
      · rename_i vv ctx1 heqv
        simp only [emitTemp, Except.ok.injEq, Prod.mk.injEq] at h
        obtain ⟨_, rfl⟩ := h
        obtain ⟨Δ1, hΔ1, hi1⟩ := compileExpression_ops_append val ctx vv ctx1 heqv
        refine ⟨Δ1 ++ [mkOp (tempName ctx1) uk.toOpKind [vv]], ?_, ?_⟩
        · simp [hΔ1]
        · exact internalBlock_append hi1
            (internalBlock_single (internalName_tempName ctx1))
  | .transpose val d0 d1 => by
    intro ctx v ctx' h
    simp only [compileExpression] at h
    split at h
    · cases h
      exact ⟨[], by simp, internalBlock_nil⟩
    · split at h
      · exact absurd h (by simp)
      · rename_i vv ctx1 heqv
        simp only [emitTemp, Except.ok.injEq, Prod.mk.injEq] at h
        obtain ⟨_, rfl⟩ := h
        obtain ⟨Δ1, hΔ1, hi1⟩ := compileExpression_ops_append val ctx vv ctx1 heqv
        refine ⟨Δ1 ++ [.mk (tempName ctx1) .transpose [vv] Option.none Option.none
          Option.none Option.none (Option.some d0) (Option.some d1) Option.none
          Option.none Option.none Option.none], ?_, ?_⟩
        · simp [hΔ1]
        · exact internalBlock_append hi1
            (internalBlock_single (internalName_tempName ctx1))
  | .sum val d k => by
    intro ctx v ctx' h
    simp only [compileExpression] at h
    split at h
    · cases h
      exact ⟨[], by simp, internalBlock_nil⟩
    · split at h
      · exact absurd h (by simp)
      · rename_i vv ctx1 heqv
        simp only [emitTemp, Except.ok.injEq, Prod.mk.injEq] at h
        obtain ⟨_, rfl⟩ := h
        obtain ⟨Δ1, hΔ1, hi1⟩ := compileExpression_ops_append val ctx vv ctx1 heqv
        refine ⟨Δ1 ++ [.mk (tempName ctx1) .sum [vv] Option.none Option.none
          (Option.some d) (Option.some k) Option.none Option.none Option.none
          Option.none Option.none Option.none], ?_, ?_⟩
        · simp [hΔ1]
        · exact internalBlock_append hi1
            (internalBlock_single (internalName_tempName ctx1))
  | .grid_scatter val x y => by
    intro ctx v ctx' h
    simp only [compileExpression] at h
    split at h
    · cases h
      exact ⟨[], by simp, internalBlock_nil⟩
    · split at h
      · exact absurd h (by simp)
      · rename_i vv ctx1 heqv
        split at h
        · exact absurd h (by simp)
        · rename_i xv ctx2 heqx
          split at h
          · exact absurd h (by simp)
          · rename_i yv ctx3 heqy
            simp only [emitTemp, Except.ok.injEq, Prod.mk.injEq] at h
            obtain ⟨_, rfl⟩ := h
            obtain ⟨Δ1, hΔ1, hi1⟩ := compileExpression_ops_append val ctx vv ctx1 heqv
            obtain ⟨Δ2, hΔ2, hi2⟩ := compileExpression_ops_append x ctx1 xv ctx2 heqx
            obtain ⟨Δ3, hΔ3, hi3⟩ := compileExpression_ops_append y ctx2 yv ctx3 heqy
            refine ⟨Δ1 ++ (Δ2 ++ (Δ3 ++
              [mkOp (tempName ctx3) .grid_scatter [vv, xv, yv]])), ?_, ?_⟩
            · simp [hΔ3, hΔ2, hΔ1]
            · exact internalBlock_append hi1 (internalBlock_append hi2
                (internalBlock_append hi3
                  (internalBlock_single (internalName_tempName ctx3))))
  | .stencil val r k => by
    intro ctx v ctx' h
    cases k with
    | none => exact absurd h (by simp [compileExpression])
    | some src body =>
      simp only [compileExpression] at h
      split at h
      · cases h
        exact ⟨[], by simp, internalBlock_nil⟩
      · split at h
        · exact absurd h (by simp)
        · rename_i vv ctx1 heqv
          split at h
          · exact absurd h (by simp)
          · rename_i kv kctx heqk
            simp only [emitTemp, Except.ok.injEq, Prod.mk.injEq] at h
            obtain ⟨_, rfl⟩ := h
            obtain ⟨Δ1, hΔ1, hi1⟩ := compileExpression_ops_append val ctx vv ctx1 heqv
            refine ⟨Δ1 ++ [.mk (tempName ctx1) .stencil [vv] Option.none
              Option.none Option.none Option.none Option.none Option.none
              (Option.some r) Option.none Option.none
              (Option.some (kctx.operations ++
                [mkOp "kernel_output" .ref_aux [kv]]))], ?_, ?_⟩
            · simp [hΔ1]
            · exact internalBlock_append hi1
                (internalBlock_single (internalName_tempName ctx1))
  | .grid_gather val x y => by
    intro ctx v ctx' h
    simp only [compileExpression] at h
    split at h
    · cases h
      exact ⟨[], by simp, internalBlock_nil⟩
    · split at h
      · exact absurd h (by simp)
      · rename_i vv ctx1 heqv
        split at h
        · exact absurd h (by simp)
        · rename_i xv ctx2 heqx
          split at h
          · exact absurd h (by simp)
          · rename_i yv ctx3 heqy
            simp only [emitTemp, Except.ok.injEq, Prod.mk.injEq] at h
            obtain ⟨_, rfl⟩ := h
            obtain ⟨Δ1, hΔ1, hi1⟩ := compileExpression_ops_append val ctx vv ctx1 heqv
            obtain ⟨Δ2, hΔ2, hi2⟩ := compileExpression_ops_append x ctx1 xv ctx2 heqx
            obtain ⟨Δ3, hΔ3, hi3⟩ := compileExpression_ops_append y ctx2 yv ctx3 heqy
            refine ⟨Δ1 ++ (Δ2 ++ (Δ3 ++
              [mkOp (tempName ctx3) .grid_gather [vv, xv, yv]])), ?_, ?_⟩
            · simp [hΔ3, hΔ2, hΔ1]
            · exact internalBlock_append hi1 (internalBlock_append hi2
                (internalBlock_append hi3
                  (internalBlock_single (internalName_tempName ctx3))))
  | .cat vs d => by
    intro ctx v ctx' h
    simp only [compileExpression] at h
    split at h
    · cases h
      exact ⟨[], by simp, internalBlock_nil⟩
    · split at h
      · exact absurd h (by simp)
      · rename_i avs ctx1 heqv
        simp only [emitTemp, Except.ok.injEq, Prod.mk.injEq] at h
        obtain ⟨_, rfl⟩ := h
        obtain ⟨Δ1, hΔ1, hi1⟩ := compileExprList_ops_append vs ctx avs ctx1 heqv
        refine ⟨Δ1 ++ [.mk (tempName ctx1) .cat avs Option.none Option.none
          (Option.some d) Option.none Option.none Option.none Option.none
          Option.none Option.none Option.none], ?_, ?_⟩
        · simp [hΔ1]
        · exact internalBlock_append hi1
            (internalBlock_single (internalName_tempName ctx1))
  | .slice val d s l => by
    intro ctx v ctx' h
    simp only [compileExpression] at h
    split at h
    · cases h
      exact ⟨[], by simp, internalBlock_nil⟩
    · split at h
      · exact absurd h (by simp)
      · rename_i vv ctx1 heqv
        simp only [emitTemp, Except.ok.injEq, Prod.mk.injEq] at h
        obtain ⟨_, rfl⟩ := h
        obtain ⟨Δ1, hΔ1, hi1⟩ := compileExpression_ops_append val ctx vv ctx1 heqv
        refine ⟨Δ1 ++ [.mk (tempName ctx1) .slice [vv] Option.none Option.none
          (Option.some d) Option.none Option.none Option.none Option.none
          (Option.some s) (Option.some l) Option.none], ?_, ?_⟩
        · simp [hΔ1]
        · exact internalBlock_append hi1
            (internalBlock_single (internalName_tempName ctx1))

theorem compileExprList_ops_append :
    (es : ExprList) → ∀ ctx vs ctx',
      compileExprList es ctx = .ok (vs, ctx') →
      ∃ Δ, ctx'.operations = ctx.operations ++ Δ ∧ InternalBlock Δ
  | .nil => by
    intro ctx vs ctx' h
    simp only [compileExprList, Except.ok.injEq, Prod.mk.injEq] at h
    obtain ⟨_, rfl⟩ := h
    exact ⟨[], by simp, internalBlock_nil⟩
  | .cons e t => by
    intro ctx vs ctx' h
    simp only [compileExprList] at h
    split at h
    · exact absurd h (by simp)
    · rename_i v1 ctx1 heq1
      split at h
      · exact absurd h (by simp)
      · rename_i vt ctx2 heq2
        simp only [Except.ok.injEq, Prod.mk.injEq] at h
        obtain ⟨_, rfl⟩ := h
        obtain ⟨Δ1, hΔ1, hi1⟩ := compileExpression_ops_append e ctx v1 ctx1 heq1
        obtain ⟨Δ2, hΔ2, hi2⟩ := compileExprList_ops_append t ctx1 vt ctx2 heq2
        exact ⟨Δ1 ++ Δ2, by simp [hΔ2, hΔ1], internalBlock_append hi1 hi2⟩

end

/-! ### C3: structural CSE -/

/-- The CSE key of compiler.ts:35-44 as a function of the node: for a
stencil, `JSON.stringify({...expr, kernel: expr.kernel.toString()})`
(throwing on an absent kernel); otherwise `JSON.stringify(expr)`. -/
def exprKeyE : Expression → Except CompileError String
  | .stencil v r k =>
      match k with
      | .none => .error .typeError
      | .some src _ => .ok (stencilKey v r src)
  | e => .ok (exprJson e)

theorem compileExpression_sets_key :
    ∀ (e : Expression) (ctx : CompilerContext) (v : String)
      (ctx' : CompilerContext),
      compileExpression e ctx = .ok (v, ctx') →
      ∃ k, exprKeyE e = .ok k ∧ getAssoc ctx'.varMap k = Option.some v := by
  intro e ctx v ctx' h
  cases e with
  | ref_state id =>
    refine ⟨_, rfl, ?_⟩
    simp only [compileExpression] at h
    split at h
    · rename_i heq
      simp only [Except.ok.injEq, Prod.mk.injEq] at h
      obtain ⟨rfl, rfl⟩ := h
      exact heq
    · simp only [Except.ok.injEq, Prod.mk.injEq] at h
      obtain ⟨rfl, rfl⟩ := h
      simp [getAssoc]
  | ref_param id group =>
    refine ⟨_, rfl, ?_⟩
    simp only [compileExpression] at h
    split at h
    · rename_i heq
      simp only [Except.ok.injEq, Prod.mk.injEq] at h
      obtain ⟨rfl, rfl⟩ := h
      exact heq
    · simp only [Except.ok.injEq, Prod.mk.injEq] at h
      obtain ⟨rfl, rfl⟩ := h
      simp [getAssoc]
  | ref_aux id =>
    refine ⟨_, rfl, ?_⟩
    simp only [compileExpression] at h
    split at h
    · rename_i heq
      simp only [Except.ok.injEq, Prod.mk.injEq] at h
      obtain ⟨rfl, rfl⟩ := h
      exact heq
    · simp only [Except.ok.injEq, Prod.mk.injEq] at h
      obtain ⟨rfl, rfl⟩ := h
      simp [getAssoc]
  | const val =>
    refine ⟨_, rfl, ?_⟩
    simp only [compileExpression] at h
    split at h
    · rename_i heq
      simp only [Except.ok.injEq, Prod.mk.injEq] at h
      obtain ⟨rfl, rfl⟩ := h
      exact heq
    · simp only [emitTemp, Except.ok.injEq, Prod.mk.injEq] at h
      obtain ⟨rfl, rfl⟩ := h
      simp [getAssoc]
  | binop bk l r =>
    refine ⟨_, rfl, ?_⟩
    simp only [compileExpression] at h
    split at h
    · rename_i heq
      simp only [Except.ok.injEq, Prod.mk.injEq] at h
      obtain ⟨rfl, rfl⟩ := h
      exact heq
    · split at h
      · exact absurd h (by simp)
      · split at h
        · exact absurd h (by simp)
        · simp only [emitTemp, Except.ok.injEq, Prod.mk.injEq] at h
          obtain ⟨rfl, rfl⟩ := h
          simp [getAssoc]
  | whereOp c t f =>
    refine ⟨_, rfl, ?_⟩
    simp only [compileExpression] at h
    split at h
    · rename_i heq
      simp only [Except.ok.injEq, Prod.mk.injEq] at h
      obtain ⟨rfl, rfl⟩ := h
      exact heq
    · split at h
      · exact absurd h (by simp)
      · split at h
        · exact absurd h (by simp)
        · split at h
          · exact absurd h (by simp)
          · simp only [emitTemp, Except.ok.injEq, Prod.mk.injEq] at h
            obtain ⟨rfl, rfl⟩ := h
            simp [getAssoc]
  | unop uk val =>
    refine ⟨_, rfl, ?_⟩
    simp only [compileExpression] at h
    split at h
    · rename_i heq
      simp only [Except.ok.injEq, Prod.mk.injEq] at h
      obtain ⟨rfl, rfl⟩ := h
      exact heq
    · split at h
      · exact absurd h (by simp)
      · simp only [emitTemp, Except.ok.injEq, Prod.mk.injEq] at h
        obtain ⟨rfl, rfl⟩ := h
        simp [getAssoc]
  | transpose val d0 d1 =>
    refine ⟨_, rfl, ?_⟩
    simp only [compileExpression] at h
    split at h
    · rename_i heq
      simp only [Except.ok.injEq, Prod.mk.injEq] at h
      obtain ⟨rfl, rfl⟩ := h
      exact heq
    · split at h
      · exact absurd h (by simp)
      · simp only [emitTemp, Except.ok.injEq, Prod.mk.injEq] at h
        obtain ⟨rfl, rfl⟩ := h
        simp [getAssoc]
  | sum val d k =>
    refine ⟨_, rfl, ?_⟩
    simp only [compileExpression] at h
    split at h
    · rename_i heq
      simp only [Except.ok.injEq, Prod.mk.injEq] at h
      obtain ⟨rfl, rfl⟩ := h
      exact heq
    · split at h
      · exact absurd h (by simp)
      · simp only [emitTemp, Except.ok.injEq, Prod.mk.injEq] at h
        obtain ⟨rfl, rfl⟩ := h
        simp [getAssoc]
  | grid_scatter val x y =>
    refine ⟨_, rfl, ?_⟩
    simp only [compileExpression] at h
    split at h
    · rename_i heq
      simp only [Except.ok.injEq, Prod.mk.injEq] at h
      obtain ⟨rfl, rfl⟩ := h
      exact heq
    · split at h
      · exact absurd h (by simp)
      · split at h
        · exact absurd h (by simp)
        · split at h
          · exact absurd h (by simp)
          · simp only [emitTemp, Except.ok.injEq, Prod.mk.injEq] at h
            obtain ⟨rfl, rfl⟩ := h
            simp [getAssoc]
  | stencil val r kk =>
    cases kk with
    | none => exact absurd h (by simp [compileExpression])
    | some src body =>
      refine ⟨stencilKey val r src, rfl, ?_⟩
      simp only [compileExpression] at h
      split at h
      · rename_i heq
        simp only [Except.ok.injEq, Prod.mk.injEq] at h
        obtain ⟨rfl, rfl⟩ := h
        exact heq
      · split at h
        · exact absurd h (by simp)
        · split at h
          · exact absurd h (by simp)
          · simp only [emitTemp, Except.ok.injEq, Prod.mk.injEq] at h
            obtain ⟨rfl, rfl⟩ := h
            simp [getAssoc]
  | grid_gather val x y =>
    refine ⟨_, rfl, ?_⟩
    simp only [compileExpression] at h
    split at h
    · rename_i heq
      simp only [Except.ok.injEq, Prod.mk.injEq] at h
      obtain ⟨rfl, rfl⟩ := h
      exact heq
    · split at h
      · exact absurd h (by simp)
      · split at h
        · exact absurd h (by simp)
        · split at h
          · exact absurd h (by simp)
          · simp only [emitTemp, Except.ok.injEq, Prod.mk.injEq] at h
            obtain ⟨rfl, rfl⟩ := h
            simp [getAssoc]
  | cat vs d =>
    refine ⟨_, rfl, ?_⟩
    simp only [compileExpression] at h
    split at h
    · rename_i heq
      simp only [Except.ok.injEq, Prod.mk.injEq] at h
      obtain ⟨rfl, rfl⟩ := h
      exact heq
    · split at h
      · exact absurd h (by simp)
      · simp only [emitTemp, Except.ok.injEq, Prod.mk.injEq] at h
        obtain ⟨rfl, rfl⟩ := h
        simp [getAssoc]
  | slice val d s l =>
    refine ⟨_, rfl, ?_⟩
    simp only [compileExpression] at h
    split at h
    · rename_i heq
      simp only [Except.ok.injEq, Prod.mk.injEq] at h
      obtain ⟨rfl, rfl⟩ := h
      exact heq
    · split at h
      · exact absurd h (by simp)
      · simp only [emitTemp, Except.ok.injEq, Prod.mk.injEq] at h
        obtain ⟨rfl, rfl⟩ := h
        simp [getAssoc]

/-- C3 (amended): structural CSE is idempotent.  In the shallow model,
"structurally identical subtrees" are equal ASTs: compiling an expression a
second time, in the context produced by its first compilation, returns the
same result variable and the *unchanged* context — no operation is emitted
again, so the value is computed once.  (The claim's converse clause — that
structurally *different* subtrees never share a result variable — fails on
the code; see the counterexample.) -/
theorem compileExpression_idempotent :
    ∀ (e : Expression) (ctx : CompilerContext) (v : String)
      (ctx' : CompilerContext),
      compileExpression e ctx = .ok (v, ctx') →
      compileExpression e ctx' = .ok (v, ctx') := by
  intro e ctx v ctx' h
  obtain ⟨k, hk, hget⟩ := compileExpression_sets_key e ctx v ctx' h
  cases e <;>
    try (simp only [exprKeyE, Except.ok.injEq] at hk; subst hk;
         simp [compileExpression, hget])
  rename_i val r kk
  cases kk with
  | none => simp [exprKeyE] at hk
  | some src body =>
    simp only [exprKeyE, Except.ok.injEq] at hk
    subst hk
    simp [compileExpression, hget]

/-- Extract the payload of a successful compilation (used to state closed
witness facts without existential quantifiers). -/
def okOr {ε α : Type} (x : Except ε α) (d : α) : α :=
  match x with
  | .ok a => a
  | .error _ => d

/-- Concrete expression for the C3 witness. -/
def c3Expr : Expression := ops.add (ops.state "x") (ops.const 1)

/-- Its first compilation from the empty context. -/
def c3First : String × CompilerContext :=
  okOr (compileExpression c3Expr emptyCtx) ("", emptyCtx)

/-- Witness for C3 at a concrete input: recompiling `c3Expr` in the context
its first compilation produced returns the same variable and the unchanged
context. -/
theorem compileExpression_idempotent_witness :
    compileExpression c3Expr c3First.2 = .ok (c3First.1, c3First.2) :=
  compileExpression_idempotent c3Expr emptyCtx c3First.1 c3First.2 rfl

/-- Two stencils that differ only in their kernels (different source and
different body), nested under identical `neg` nodes. -/
def c3Nested1 : Expression :=
  .unop .neg (.stencil (.ref_state "g") 1 (.some "(c, n) => c" (.ref_aux "center")))

/-- Same shape, different kernel. -/
def c3Nested2 : Expression :=
  .unop .neg (.stencil (.ref_state "g") 1 (.some "(c, n) => n" (.ref_aux "neighbor")))

/-- First compilation of `c3Nested1`. -/
def c3NestedFirst : String × CompilerContext :=
  okOr (compileExpression c3Nested1 emptyCtx) ("", emptyCtx)

/-- C3 counterexample: `c3Nested1` and `c3Nested2` are structurally
different subtrees — their stencils carry different kernels — yet compiling
the second after the first returns the *same* result variable and emits
nothing: `JSON.stringify` omits the function-valued `kernel` field of a
nested stencil, so both `neg` nodes get the same CSE key
(compiler.ts:43). -/
theorem cse_nested_kernel_collision :
    compileExpression c3Nested1 emptyCtx = .ok (c3NestedFirst.1, c3NestedFirst.2) ∧
    compileExpression c3Nested2 c3NestedFirst.2 =
      .ok (c3NestedFirst.1, c3NestedFirst.2) ∧
    c3Nested1 ≠ c3Nested2 := by
  refine ⟨rfl, rfl, ?_⟩
  intro hcontra
  simp only [c3Nested1, c3Nested2, Expression.unop.injEq, Expression.stencil.injEq,
    KernelOpt.some.injEq] at hcontra
  exact absurd hcontra.2.2.2.1 (by decide)

/-! ### C10/C4: decomposition of the final operation list

The operation list of a successful compilation is: for each rule in order, a
block of intermediate operations followed by the rule's terminal assignment
`{target: rule.target_state, op:'add', args:[v]}`; then one pass-through
assignment `{target: n, op:'add', args:[v]}` for each `state_vars` entry `n`
not updated by any rule, in `state_vars` order. -/

/-- A block decomposes as rule blocks: intermediates (targeting only
compiler-generated names) followed by a single-argument `add` terminal
assignment, one group per rule in order. -/
def RuleBlocks : List DynamicsRule → List Operation → Prop
  | [], Δ => Δ = []
  | r :: rs, Δ =>
      ∃ Δ1 v Δ2, Δ = Δ1 ++ (mkOp r.target_state .add [v]) :: Δ2 ∧
        InternalBlock Δ1 ∧ RuleBlocks rs Δ2

/-- A block decomposes as single-argument `add` pass-through assignments,
one per pending state var not in the updated set, in order. -/
def PassBlocks : List String → List String → List Operation → Prop
  | [], _, Δ => Δ = []
  | n :: t, uset, Δ =>
      if n ∈ uset then PassBlocks t uset Δ
      else ∃ v Δ2, Δ = (mkOp n .add [v]) :: Δ2 ∧ PassBlocks t uset Δ2

theorem compileRulesLoop_decomp :
    (rules : List DynamicsRule) → ∀ ctx ctx',
      compileRulesLoop rules ctx = .ok ctx' →
      ∃ Δ, ctx'.operations = ctx.operations ++ Δ ∧ RuleBlocks rules Δ
  | [] => by
    intro ctx ctx' h
    simp only [compileRulesLoop, Except.ok.injEq] at h
    subst h
    exact ⟨[], by simp, rfl⟩
  | r :: rs => by
    intro ctx ctx' h
    simp only [compileRulesLoop] at h
    split at h
    · exact absurd h (by simp)
    · rename_i v ctx1 heq
      obtain ⟨Δrest, hops, hblocks⟩ := compileRulesLoop_decomp rs _ _ h
      obtain ⟨Δ1, hΔ1, hint⟩ := compileExpression_ops_append r.expr ctx v ctx1 heq
      refine ⟨Δ1 ++ (mkOp r.target_state .add [v]) :: Δrest, ?_,
        ⟨Δ1, v, Δrest, rfl, hint, hblocks⟩⟩
      simp only [hops, hΔ1]
      simp

theorem passThroughLoop_decomp :
    (names : List String) → ∀ uset ctx ctx',
      passThroughLoop names uset ctx = .ok ctx' →
      ∃ Δ, ctx'.operations = ctx.operations ++ Δ ∧ PassBlocks names uset Δ
  | [] => by
    intro uset ctx ctx' h
    simp only [passThroughLoop, Except.ok.injEq] at h
    subst h
    exact ⟨[], by simp, rfl⟩
  | n :: t => by
    intro uset ctx ctx' h
    simp only [passThroughLoop] at h
    split at h
    · rename_i hmem
      obtain ⟨Δ, hops, hblocks⟩ := passThroughLoop_decomp t uset ctx ctx' h
      exact ⟨Δ, hops, by simp only [PassBlocks, if_pos hmem]; exact hblocks⟩
    · rename_i hmem
      split at h
      · exact absurd h (by simp)
      · rename_i v ctx1 heq
        obtain ⟨Δrest, hops, hblocks⟩ := passThroughLoop_decomp t uset _ _ h
        obtain ⟨Δ1, hΔ1, _⟩ := compileExpression_ops_append (.ref_state n) ctx v ctx1 heq
        have hΔnil : Δ1 = [] := by
          have h0 := compileExpression_ops_append (.ref_state n) ctx v ctx1 heq
          -- the ref_state case emits no operation
          simp only [compileExpression] at heq
          split at heq
          · simp only [Except.ok.injEq, Prod.mk.injEq] at heq
            obtain ⟨rfl, rfl⟩ := heq
            exact List.append_right_eq_self.mp hΔ1.symm
          · simp only [Except.ok.injEq, Prod.mk.injEq] at heq
            obtain ⟨rfl, rfl⟩ := heq
            exact List.append_right_eq_self.mp hΔ1.symm
        refine ⟨(mkOp n .add [v]) :: Δrest, ?_, ?_⟩
        · simp only [hops, hΔ1, hΔnil]
          simp
        · simp only [PassBlocks, if_neg hmem]
          exact ⟨v, Δrest, rfl, hblocks⟩

/-- Decomposition of a successful `compileRules` run: `state_vars` is
`computeStateVars`, and the operation list is the rule blocks followed by the
pass-through blocks over the unwritten state vars. -/
theorem compileRules_ops_decomp
    (rules : List DynamicsRule) (order : List String) (consts : SimConstants)
    (pg : ParameterGroups) (bc : List BoundaryCondition)
    (init : InitializationIR) (gc : Option GridConfig) (ir : OutputIR)
    (h : compileRules rules order consts pg bc init gc = .ok ir) :
    ir.state_vars = computeStateVars rules order ∧
    ∃ Δr Δp, ir.operations = Δr ++ Δp ∧ RuleBlocks rules Δr ∧
      PassBlocks ir.state_vars (collectRulesLoop rules [] []).2 Δp := by
  simp only [compileRules] at h
  split at h
  · exact absurd h (by simp)
  · split at h
    · exact absurd h (by simp)
    · rename_i ctx1 heq1
      split at h
      · exact absurd h (by simp)
      · rename_i ctx2 heq2
        split at h
        · exact absurd h (by simp)
        · simp only [Except.ok.injEq] at h
          subst h
          obtain ⟨Δr, hr, hbr⟩ := compileRulesLoop_decomp rules emptyCtx ctx1 heq1
          obtain ⟨Δp, hp, hbp⟩ := passThroughLoop_decomp _ _ ctx1 ctx2 heq2
          refine ⟨rfl, Δr, Δp, ?_, hbr, hbp⟩
          simp only [hp, hr, emptyCtx]
          simp

/-- C10: every terminal assignment the compiler emits — the assignment
closing each rule and each auto pass-through — is an operation with op
`'add'` and exactly one argument (`mkOp target .add [v]`, compiler.ts:441-445
and 452-456), placed after that rule's intermediate operations; the IR has
no dedicated assignment opcode, so a runtime must recognize a
single-argument `'add'` targeting a state var as an assignment. -/
theorem terminal_assignments_are_single_arg_add
    (rules : List DynamicsRule) (order : List String) (consts : SimConstants)
    (pg : ParameterGroups) (bc : List BoundaryCondition)
    (init : InitializationIR) (gc : Option GridConfig) (ir : OutputIR)
    (h : compileRules rules order consts pg bc init gc = .ok ir) :
    ∃ Δr Δp, ir.operations = Δr ++ Δp ∧ RuleBlocks rules Δr ∧
      PassBlocks ir.state_vars (collectRulesLoop rules [] []).2 Δp :=
  (compileRules_ops_decomp rules order consts pg bc init gc ir h).2

/-- Concrete bundle for the C10 witness: one rule and one pass-through. -/
def c10Rules : List DynamicsRule :=
  [⟨"pos", ops.add (ops.state "pos") (ops.state "vel")⟩]

/-- Its compiled IR. -/
def c10IR : OutputIR :=
  okOr (compileRules c10Rules ["pos", "vel"] stdConsts stdGroups []
    ⟨[("pos", .const 0), ("vel", .const 0)], .normal 0 1⟩ Option.none) default

/-- Witness for C10 at a concrete input. -/
theorem terminal_assignments_witness :
    ∃ Δr Δp, c10IR.operations = Δr ++ Δp ∧ RuleBlocks c10Rules Δr ∧
      PassBlocks c10IR.state_vars (collectRulesLoop c10Rules [] []).2 Δp :=
  terminal_assignments_are_single_arg_add c10Rules ["pos", "vel"] stdConsts
    stdGroups [] ⟨[("pos", .const 0), ("vel", .const 0)], .normal 0 1⟩
    Option.none c10IR rfl

/-! ### C4: exactly one assignment per state var -/

theorem collectRulesLoop_snd_mem :
    (rules : List DynamicsRule) → ∀ s u x,
      (x ∈ (collectRulesLoop rules s u).2 ↔
        x ∈ u ∨ x ∈ rules.map (·.target_state))
  | [] => by intro s u x; simp [collectRulesLoop]
  | r :: rs => by
      intro s u x
      rw [collectRulesLoop, collectRulesLoop_snd_mem rs _ _ x, addSet_mem]
      simp
      tauto

theorem orderLoop2_nodup :
    (src : List String) → ∀ pre, pre.Nodup → (orderLoop2 src pre).Nodup
  | [] => fun _ h => h
  | n :: t => fun pre h => by
      rw [orderLoop2]
      split
      · exact orderLoop2_nodup t pre h
      · rename_i hmem
        refine orderLoop2_nodup t (pre ++ [n]) ?_
        exact List.nodup_append.mpr ⟨h, List.nodup_singleton n, by simp_all⟩

theorem computeStateVars_nodup (rules : List DynamicsRule)
    (order : List String) (h : order.Nodup) :
    (computeStateVars rules order).Nodup :=
  orderLoop2_nodup _ _ (List.Nodup.filter _ h)

theorem internalBlock_countP_zero {Δ : List Operation} {sv : String}
    (hib : InternalBlock Δ) (hcl : internalName sv = false) :
    Δ.countP (fun op => op.target == sv) = 0 := by
  rw [List.countP_eq_zero]
  intro op hop heq
  have hts : op.target = sv := by simpa using heq
  have hit := hib op hop
  rw [hts] at hit
  simp [hit] at hcl

theorem ruleBlocks_countP (sv : String) (hcl : internalName sv = false) :
    (rules : List DynamicsRule) → ∀ Δ, RuleBlocks rules Δ →
      Δ.countP (fun op => op.target == sv) =
        (rules.map (·.target_state)).countP (fun t => t == sv)
  | [] => by
      intro Δ hb
      rw [show Δ = [] from hb]
      simp
  | r :: rs => by
      intro Δ hb
      obtain ⟨Δ1, v, Δ2, rfl, hint, hrest⟩ := hb
      rw [List.countP_append, List.countP_cons,
        internalBlock_countP_zero hint hcl,
        ruleBlocks_countP sv hcl rs Δ2 hrest]
      simp only [List.map_cons, List.countP_cons, Operation.target_mkOp]
      omega

theorem passBlocks_countP (sv : String) :
    (names : List String) → ∀ uset Δ, PassBlocks names uset Δ →
      Δ.countP (fun op => op.target == sv) =
        (names.filter (fun n => n ∉ uset)).countP (fun n => n == sv)
  | [] => by
      intro uset Δ hb
      rw [show Δ = [] from hb]
      simp
  | n :: t => by
      intro uset Δ hb
      by_cases hmem : n ∈ uset
      · simp only [PassBlocks, if_pos hmem] at hb
        rw [passBlocks_countP sv t uset Δ hb]
        simp [List.filter_cons, hmem]
      · simp only [PassBlocks, if_neg hmem] at hb
        obtain ⟨v, Δ2, rfl, hrest⟩ := hb
        have hfc : List.filter (fun x => decide (x ∉ uset)) (n :: t) =
            n :: List.filter (fun x => decide (x ∉ uset)) t := by
          simp [List.filter_cons, hmem]
        rw [List.countP_cons, passBlocks_countP sv t uset Δ2 hrest, hfc,
          List.countP_cons]
        simp [Operation.target_mkOp]

/-- The IR of a bundle with two rules targeting the same state var. -/
def c4DupIR : OutputIR :=
  okOr (compileRules [⟨"x", ops.const 1⟩, ⟨"x", ops.const 2⟩] ["x"] stdConsts
    stdGroups [] ⟨[("x", .const 0)], .normal 0 1⟩ Option.none) default

/-- C4 counterexample: a bundle with two rules targeting `x` compiles
successfully, yet the final operation list contains **two** operations whose
target is the state var `x` — refuting "exactly one operation whose target
is that state var". -/
theorem duplicate_rule_targets_double_assign :
    (compileRules [⟨"x", ops.const 1⟩, ⟨"x", ops.const 2⟩] ["x"] stdConsts
      stdGroups [] ⟨[("x", .const 0)], .normal 0 1⟩ Option.none).isOk = true ∧
    c4DupIR.state_vars = ["x"] ∧
    c4DupIR.operations.countP (fun op => op.target == "x") = 2 :=
  ⟨rfl, rfl, rfl⟩

/-- C4 (amended): for every bundle that compiles successfully, **provided**
the rules' target states are pairwise distinct, `STATE_VAR_ORDER` has no
duplicate entries, and no state var name collides with the compiler's
intermediate names (`temp_<k>`/`p_<id>` prefixes), the final operation list
contains exactly one operation whose target is each state var — the terminal
assignment of the rule targeting it, or the auto pass-through when no rule
does.  (Without the distinctness hypothesis the counterexample applies.) -/
theorem unique_assignment_per_state_var
    (rules : List DynamicsRule) (order : List String) (consts : SimConstants)
    (pg : ParameterGroups) (bc : List BoundaryCondition)
    (init : InitializationIR) (gc : Option GridConfig) (ir : OutputIR)
    (h : compileRules rules order consts pg bc init gc = .ok ir)
    (hnd : (rules.map (·.target_state)).Nodup)
    (hord : order.Nodup)
    (hclean : ∀ sv ∈ ir.state_vars, internalName sv = false) :
    ∀ sv ∈ ir.state_vars,
      ir.operations.countP (fun op => op.target == sv) = 1 := by
  obtain ⟨hsv, Δr, Δp, hops, hbr, hbp⟩ :=
    compileRules_ops_decomp rules order consts pg bc init gc ir h
  intro sv hmem
  have hcl := hclean sv hmem
  rw [hops, List.countP_append,
    ruleBlocks_countP sv hcl rules Δr hbr,
    passBlocks_countP sv ir.state_vars _ Δp hbp]
  by_cases htgt : sv ∈ rules.map (·.target_state)
  · have h1 : (rules.map (·.target_state)).countP (fun t => t == sv) = 1 :=
      List.count_eq_one_of_mem hnd htgt
    have h2 : (ir.state_vars.filter
        (fun n => n ∉ (collectRulesLoop rules [] []).2)).countP
          (fun n => n == sv) = 0 := by
      rw [List.countP_eq_zero]
      intro a ha haeq
      obtain ⟨_, hnotu⟩ := List.mem_filter.mp ha
      have hav : a = sv := by simpa using haeq
      subst hav
      have : a ∈ (collectRulesLoop rules [] []).2 :=
        (collectRulesLoop_snd_mem rules [] [] a).mpr (Or.inr htgt)
      simp [this] at hnotu
    omega
  · have h1 : (rules.map (·.target_state)).countP (fun t => t == sv) = 0 :=
      List.count_eq_zero_of_not_mem htgt
    have hnotu : sv ∉ (collectRulesLoop rules [] []).2 := by
      intro hin
      rcases (collectRulesLoop_snd_mem rules [] [] sv).mp hin with hfalse | htgt'
      · cases hfalse
      · exact htgt htgt'
    have hfmem : sv ∈ ir.state_vars.filter
        (fun n => n ∉ (collectRulesLoop rules [] []).2) :=
      List.mem_filter.mpr ⟨hmem, by simpa using hnotu⟩
    have hfnd : (ir.state_vars.filter
        (fun n => n ∉ (collectRulesLoop rules [] []).2)).Nodup :=
      List.Nodup.filter _ (hsv ▸ computeStateVars_nodup rules order hord)
    have h2 : (ir.state_vars.filter
        (fun n => n ∉ (collectRulesLoop rules [] []).2)).countP
          (fun n => n == sv) = 1 :=
      List.count_eq_one_of_mem hfnd hfmem
    omega

/-- Distinct-target bundle for the C4 witness (one rule, one pass-through). -/
def c4IR : OutputIR :=
  okOr (compileRules c10Rules ["pos", "vel"] stdConsts stdGroups []
    ⟨[("pos", .const 0), ("vel", .const 0)], .normal 0 1⟩ Option.none) default

/-- Witness for C4 at a concrete input: exactly one operation targets the
pass-through state var `vel`. -/
theorem unique_assignment_witness :
    c4IR.operations.countP (fun op => op.target == "vel") = 1 :=
  unique_assignment_per_state_var c10Rules ["pos", "vel"] stdConsts stdGroups
    [] ⟨[("pos", .const 0), ("vel", .const 0)], .normal 0 1⟩ Option.none c4IR
    rfl (by decide) (by decide)
    (by
      intro sv hsv
      have hdis : sv = "pos" ∨ sv = "vel" := by
        rw [show c4IR.state_vars = ["pos", "vel"] from rfl] at hsv
        simpa using hsv
      rcases hdis with rfl | rfl <;> rfl)
    "vel"
    (by rw [show c4IR.state_vars = ["pos", "vel"] from rfl]; simp)

/-! ### C7: stencil compilation -/

/-- C7: compiling a stencil that carries a kernel (when its CSE key is not
cached) compiles the kernel **in an isolated compiler context** (the fresh
`emptyCtx`: temp counter `0`, empty operations, empty CSE map,
compiler.ts:198-202), with `center` and `neighbor` bound as `ref_aux`
placeholders — in this model the stored kernel body *is* the closure applied
to those placeholders (compiler.ts:206-210) — appends as the **last** kernel
operation the sentinel `{target:'kernel_output', op:'ref_aux',
args:[kernelResultVar]}` (compiler.ts:228-232), and emits one outer stencil
operation carrying `stencil_range` and the embedded `kernel_operations`
(compiler.ts:234-241). -/
theorem stencil_compilation_spec
    (v body : Expression) (src : String) (r : Int) (ctx : CompilerContext)
    (vv kv : String) (ctx1 kctx : CompilerContext)
    (hmiss : getAssoc ctx.varMap (stencilKey v r src) = Option.none)
    (hv : compileExpression v ctx = .ok (vv, ctx1))
    (hk : compileExpression body emptyCtx = .ok (kv, kctx)) :
    compileExpression (.stencil v r (.some src body)) ctx =
      .ok (tempName ctx1,
        ⟨ctx1.tempVarCounter + 1,
         ctx1.operations ++
           [.mk (tempName ctx1) .stencil [vv] Option.none Option.none
              Option.none Option.none Option.none Option.none (Option.some r)
              Option.none Option.none
              (Option.some (kctx.operations ++
                [mkOp "kernel_output" .ref_aux [kv]]))],
         (stencilKey v r src, tempName ctx1) :: ctx1.varMap⟩) := by
  simp [compileExpression, hmiss, hv, hk, emitTemp, tempName]

/-- The stencil grid argument for the C7 witness. -/
def c7v : Expression := ops.state "g"

/-- The applied kernel body `kernel(center, neighbor) = neighbor − center`. -/
def c7body : Expression := ops.sub (ops.aux "neighbor") (ops.aux "center")

/-- The kernel's `toString()` source. -/
def c7src : String := "(center, neighbor) => ops.sub(neighbor, center)"

/-- Compilation of the grid argument from the empty context. -/
def c7vr : String × CompilerContext := okOr (compileExpression c7v emptyCtx) ("", emptyCtx)

/-- Isolated compilation of the kernel body. -/
def c7kr : String × CompilerContext := okOr (compileExpression c7body emptyCtx) ("", emptyCtx)

/-- Witness for C7 at a concrete stencil. -/
theorem stencil_compilation_witness :
    compileExpression (.stencil c7v 1 (.some c7src c7body)) emptyCtx =
      .ok (tempName c7vr.2,
        ⟨c7vr.2.tempVarCounter + 1,
         c7vr.2.operations ++
           [.mk (tempName c7vr.2) .stencil [c7vr.1] Option.none Option.none
              Option.none Option.none Option.none Option.none (Option.some 1)
              Option.none Option.none
              (Option.some (c7kr.2.operations ++
                [mkOp "kernel_output" .ref_aux [c7kr.1]]))],
         (stencilKey c7v 1 c7src, tempName c7vr.2) :: c7vr.2.varMap⟩) :=
  stencil_compilation_spec c7v c7body c7src 1 emptyCtx c7vr.1 c7kr.1 c7vr.2
    c7kr.2 rfl rfl rfl

/-! ### C5: compilation fails iff initialization misses a state var

The hypotheses of the claim — every `ref_param` group known, every stencil
carrying a kernel — are expressed by two decidable structural predicates;
under them every stage of `compileRules` except the initialization check is
total. -/

mutual

/-- Every stencil node (anywhere, including inside kernel bodies and `cat`
elements) carries a kernel. -/
def kernelsOk : Expression → Bool
  | .ref_state _ => true
  | .ref_param _ _ => true
  | .ref_aux _ => true
  | .const _ => true
  | .binop _ l r => kernelsOk l && kernelsOk r
  | .whereOp c t f => kernelsOk c && kernelsOk t && kernelsOk f
  | .unop _ v => kernelsOk v
  | .transpose v _ _ => kernelsOk v
  | .sum v _ _ => kernelsOk v
  | .grid_scatter v x y => kernelsOk v && kernelsOk x && kernelsOk y
  | .stencil v _ k => kernelsOk v && kernelsOkK k
  | .grid_gather v x y => kernelsOk v && kernelsOk x && kernelsOk y
  | .cat vs _ => kernelsOkList vs
  | .slice v _ _ _ => kernelsOk v

/-- A kernel is present and its body is itself stencil-closed. -/
def kernelsOkK : KernelOpt → Bool
  | .none => false
  | .some _ body => kernelsOk body

/-- The `kernelsOk` over a `cat` element list. -/
def kernelsOkList : ExprList → Bool
  | .nil => true
  | .cons e t => kernelsOk e && kernelsOkList t

end

mutual

/-- Every `ref_param` (anywhere, including kernel bodies) cites a group in
`gs`. -/
def groupsOk (gs : List String) : Expression → Bool
  | .ref_state _ => true
  | .ref_param _ group => group ∈ gs
  | .ref_aux _ => true
  | .const _ => true
  | .binop _ l r => groupsOk gs l && groupsOk gs r
  | .whereOp c t f => groupsOk gs c && groupsOk gs t && groupsOk gs f
  | .unop _ v => groupsOk gs v
  | .transpose v _ _ => groupsOk gs v
  | .sum v _ _ => groupsOk gs v
  | .grid_scatter v x y => groupsOk gs v && groupsOk gs x && groupsOk gs y
  | .stencil v _ k => groupsOk gs v && groupsOkK gs k
  | .grid_gather v x y => groupsOk gs v && groupsOk gs x && groupsOk gs y
  | .cat vs _ => groupsOkList gs vs
  | .slice v _ _ _ => groupsOk gs v

/-- The `groupsOk` of an optional kernel body (an absent kernel references no
parameters). -/
def groupsOkK (gs : List String) : KernelOpt → Bool
  | .none => true
  | .some _ body => groupsOk gs body

/-- The `groupsOk` over a `cat` element list. -/
def groupsOkList (gs : List String) : ExprList → Bool
  | .nil => true
  | .cons e t => groupsOk gs e && groupsOkList gs t

end

theorem getAssoc_setAssoc_self {α : Type} :
    (m : List (String × α)) → ∀ k v, getAssoc (setAssoc m k v) k = Option.some v
  | [] => by intro k v; simp [setAssoc, getAssoc]
  | (k', v') :: t => by
      intro k v
      by_cases h : k' = k
      · simp [setAssoc, h, getAssoc]
      · simp [setAssoc, h, getAssoc, getAssoc_setAssoc_self t k v]

theorem getAssoc_setAssoc_other {α : Type} :
    (m : List (String × α)) → ∀ k k' v, k' ≠ k →
      getAssoc (setAssoc m k v) k' = getAssoc m k'
  | [] => by
      intro k k' v h
      have h2 : k ≠ k' := fun hc => h hc.symm
      simp [setAssoc, getAssoc, h2]
  | (k0, v0) :: t => by
      intro k k' v h
      by_cases h0 : k0 = k
      · subst h0
        have h2 : k0 ≠ k' := fun hc => h hc.symm
        simp [setAssoc, getAssoc, h2]
      · simp only [setAssoc, if_neg h0]
        by_cases h1 : k0 = k'
        · simp [getAssoc, h1]
        · simp [getAssoc, h1, getAssoc_setAssoc_other t k k' v h]

theorem getAssoc_setAssoc_isSome {α : Type} (m : List (String × α))
    (k g : String) (v : α) (h : (getAssoc m g).isSome = true) :
    (getAssoc (setAssoc m k v) g).isSome = true := by
  by_cases hg : g = k
  · subst hg
    simp [getAssoc_setAssoc_self]
  · rw [getAssoc_setAssoc_other m k g v hg]
    exact h

theorem exists_ok_of_isOk {ε α β : Type} {x : Except ε (α × β)}
    (h : x.isOk = true) : ∃ v c, x = .ok (v, c) := by
  match x, h with
  | .ok (v, c), _ => exact ⟨v, c, rfl⟩

mutual

theorem compileExpression_total :
    (e : Expression) → ∀ ctx, kernelsOk e = true →
      ∃ v ctx', compileExpression e ctx = .ok (v, ctx')
  | .ref_state id => by
    intro ctx _
    cases hlk : getAssoc ctx.varMap (exprJson (.ref_state id)) with
    | some existing => exact ⟨existing, ctx, by simp [compileExpression, hlk]⟩
    | none =>
      exact exists_ok_of_isOk (by simp [compileExpression, hlk, Except.isOk, Except.toBool])
  | .ref_param id group => by
    intro ctx _
    cases hlk : getAssoc ctx.varMap (exprJson (.ref_param id group)) with
    | some existing => exact ⟨existing, ctx, by simp [compileExpression, hlk]⟩
    | none =>
      exact exists_ok_of_isOk (by simp [compileExpression, hlk, Except.isOk, Except.toBool])
  | .ref_aux id => by
    intro ctx _
    cases hlk : getAssoc ctx.varMap (exprJson (.ref_aux id)) with
    | some existing => exact ⟨existing, ctx, by simp [compileExpression, hlk]⟩
    | none =>
      exact exists_ok_of_isOk (by simp [compileExpression, hlk, Except.isOk, Except.toBool])
  | .const val => by
    intro ctx _
    cases hlk : getAssoc ctx.varMap (exprJson (.const val)) with
    | some existing => exact ⟨existing, ctx, by simp [compileExpression, hlk]⟩
    | none =>
      exact exists_ok_of_isOk (by simp [compileExpression, hlk, Except.isOk, Except.toBool])
  | .binop bk l r => by
    intro ctx hko
    simp only [kernelsOk, Bool.and_eq_true] at hko
    cases hlk : getAssoc ctx.varMap (exprJson (.binop bk l r)) with
    | some existing => exact ⟨existing, ctx, by simp [compileExpression, hlk]⟩
    | none =>
      obtain ⟨lv, ctx1, hl⟩ := compileExpression_total l ctx hko.1
      obtain ⟨rv, ctx2, hr⟩ := compileExpression_total r ctx1 hko.2
      exact exists_ok_of_isOk (by simp [compileExpression, hlk, hl, hr, Except.isOk, Except.toBool])
  | .whereOp c t f => by
    intro ctx hko
    simp only [kernelsOk, Bool.and_eq_true] at hko
    cases hlk : getAssoc ctx.varMap (exprJson (.whereOp c t f)) with
    | some existing => exact ⟨existing, ctx, by simp [compileExpression, hlk]⟩
    | none =>
      obtain ⟨cv, ctx1, hc⟩ := compileExpression_total c ctx hko.1.1
      obtain ⟨tv, ctx2, ht⟩ := compileExpression_total t ctx1 hko.1.2
      obtain ⟨fv, ctx3, hf⟩ := compileExpression_total f ctx2 hko.2
      exact exists_ok_of_isOk (by simp [compileExpression, hlk, hc, ht, hf, Except.isOk, Except.toBool])
  | .unop uk val => by
    intro ctx hko
    simp only [kernelsOk] at hko
    cases hlk : getAssoc ctx.varMap (exprJson (.unop uk val)) with
    | some existing => exact ⟨existing, ctx, by simp [compileExpression, hlk]⟩
    | none =>
      obtain ⟨vv, ctx1, hv⟩ := compileExpression_total val ctx hko
      exact exists_ok_of_isOk (by simp [compileExpression, hlk, hv, Except.isOk, Except.toBool])
  | .transpose val d0 d1 => by
    intro ctx hko
    simp only [kernelsOk] at hko
    cases hlk : getAssoc ctx.varMap (exprJson (.transpose val d0 d1)) with
    | some existing => exact ⟨existing, ctx, by simp [compileExpression, hlk]⟩
    | none =>
      obtain ⟨vv, ctx1, hv⟩ := compileExpression_total val ctx hko
      exact exists_ok_of_isOk (by simp [compileExpression, hlk, hv, Except.isOk, Except.toBool])
  | .sum val d k => by
    intro ctx hko
    simp only [kernelsOk] at hko
    cases hlk : getAssoc ctx.varMap (exprJson (.sum val d k)) with
    | some existing => exact ⟨existing, ctx, by simp [compileExpression, hlk]⟩
    | none =>
      obtain ⟨vv, ctx1, hv⟩ := compileExpression_total val ctx hko
      exact exists_ok_of_isOk (by simp [compileExpression, hlk, hv, Except.isOk, Except.toBool])
  | .grid_scatter val x y => by
    intro ctx hko
    simp only [kernelsOk, Bool.and_eq_true] at hko
    cases hlk : getAssoc ctx.varMap (exprJson (.grid_scatter val x y)) with
    | some existing => exact ⟨existing, ctx, by simp [compileExpression, hlk]⟩
    | none =>
      obtain ⟨vv, ctx1, hv⟩ := compileExpression_total val ctx hko.1.1
      obtain ⟨xv, ctx2, hx⟩ := compileExpression_total x ctx1 hko.1.2
      obtain ⟨yv, ctx3, hy⟩ := compileExpression_total y ctx2 hko.2
      exact exists_ok_of_isOk (by simp [compileExpression, hlk, hv, hx, hy, Except.isOk, Except.toBool])
  | .stencil val r k => by
    intro ctx hko
    simp only [kernelsOk, Bool.and_eq_true] at hko
    match k, hko with
    | .some src body, hko =>
      have hbody : kernelsOk body = true := by
        have := hko.2
        simpa [kernelsOkK] using this
      cases hlk : getAssoc ctx.varMap (stencilKey val r src) with
      | some existing =>
        exact ⟨existing, ctx, by simp [compileExpression, hlk]⟩
      | none =>
        obtain ⟨vv, ctx1, hv⟩ := compileExpression_total val ctx hko.1
        obtain ⟨kv, kctx, hk⟩ := compileExpression_total body emptyCtx hbody
        exact exists_ok_of_isOk (by simp [compileExpression, hlk, hv, hk, Except.isOk, Except.toBool])
  | .grid_gather val x y => by
    intro ctx hko
    simp only [kernelsOk, Bool.and_eq_true] at hko
    cases hlk : getAssoc ctx.varMap (exprJson (.grid_gather val x y)) with
    | some existing => exact ⟨existing, ctx, by simp [compileExpression, hlk]⟩
    | none =>
      obtain ⟨vv, ctx1, hv⟩ := compileExpression_total val ctx hko.1.1
      obtain ⟨xv, ctx2, hx⟩ := compileExpression_total x ctx1 hko.1.2
      obtain ⟨yv, ctx3, hy⟩ := compileExpression_total y ctx2 hko.2
      exact exists_ok_of_isOk (by simp [compileExpression, hlk, hv, hx, hy, Except.isOk, Except.toBool])
  | .cat vs d => by
    intro ctx hko
    simp only [kernelsOk] at hko
    cases hlk : getAssoc ctx.varMap (exprJson (.cat vs d)) with
    | some existing => exact ⟨existing, ctx, by simp [compileExpression, hlk]⟩
    | none =>
      obtain ⟨avs, ctx1, hv⟩ := compileExprList_total vs ctx hko
      exact exists_ok_of_isOk (by simp [compileExpression, hlk, hv, Except.isOk, Except.toBool])
  | .slice val d s l => by
    intro ctx hko
    simp only [kernelsOk] at hko
    cases hlk : getAssoc ctx.varMap (exprJson (.slice val d s l)) with
    | some existing => exact ⟨existing, ctx, by simp [compileExpression, hlk]⟩
    | none =>
      obtain ⟨vv, ctx1, hv⟩ := compileExpression_total val ctx hko
      exact exists_ok_of_isOk (by simp [compileExpression, hlk, hv, Except.isOk, Except.toBool])

theorem compileExprList_total :
    (es : ExprList) → ∀ ctx, kernelsOkList es = true →
      ∃ vs ctx', compileExprList es ctx = .ok (vs, ctx')
  | .nil => by
    intro ctx _
    exact ⟨[], ctx, rfl⟩
  | .cons e t => by
    intro ctx hko
    simp only [kernelsOkList, Bool.and_eq_true] at hko
    obtain ⟨v, ctx1, hv⟩ := compileExpression_total e ctx hko.1
    obtain ⟨vs, ctx2, ht⟩ := compileExprList_total t ctx1 hko.2
    exact exists_ok_of_isOk (by simp [compileExprList, hv, ht, Except.isOk, Except.toBool])

end

mutual

theorem collectParams_total (gs : List String) :
    (e : Expression) → ∀ acc : ParamsAcc, groupsOk gs e = true →
      (∀ g ∈ gs, (getAssoc acc g).isSome = true) →
      ∃ acc', collectParams e acc = .ok acc' ∧
        (∀ g ∈ gs, (getAssoc acc' g).isSome = true)
  | .ref_state _ => fun acc _ hinv => ⟨acc, rfl, hinv⟩
  | .ref_aux _ => fun acc _ hinv => ⟨acc, rfl, hinv⟩
  | .const _ => fun acc _ hinv => ⟨acc, rfl, hinv⟩
  | .ref_param id group => by
    intro acc hok hinv
    have hmem : group ∈ gs := by simpa [groupsOk] using hok
    have hsome := hinv group hmem
    cases hga : getAssoc acc group with
    | none => rw [hga] at hsome; cases hsome
    | some s =>
      refine ⟨setAssoc acc group (addSet s id), by simp [collectParams, hga], ?_⟩
      intro g hg
      exact getAssoc_setAssoc_isSome acc group g _ (hinv g hg)
  | .binop bk l r => by
    intro acc hok hinv
    simp only [groupsOk, Bool.and_eq_true] at hok
    obtain ⟨acc1, h1, hi1⟩ := collectParams_total gs l acc hok.1 hinv
    obtain ⟨acc2, h2, hi2⟩ := collectParams_total gs r acc1 hok.2 hi1
    exact ⟨acc2, by simp [collectParams, h1, h2], hi2⟩
  | .whereOp c t f => by
    intro acc hok hinv
    simp only [groupsOk, Bool.and_eq_true] at hok
    obtain ⟨acc1, h1, hi1⟩ := collectParams_total gs c acc hok.1.1 hinv
    obtain ⟨acc2, h2, hi2⟩ := collectParams_total gs t acc1 hok.1.2 hi1
    obtain ⟨acc3, h3, hi3⟩ := collectParams_total gs f acc2 hok.2 hi2
    exact ⟨acc3, by simp [collectParams, h1, h2, h3], hi3⟩
  | .unop uk v => by
    intro acc hok hinv
    simp only [groupsOk] at hok
    obtain ⟨acc1, h1, hi1⟩ := collectParams_total gs v acc hok hinv
    exact ⟨acc1, by simp [collectParams, h1], hi1⟩
  | .transpose v d0 d1 => by
    intro acc hok hinv
    simp only [groupsOk] at hok
    obtain ⟨acc1, h1, hi1⟩ := collectParams_total gs v acc hok hinv
    exact ⟨acc1, by simp [collectParams, h1], hi1⟩
  | .sum v d k => by
    intro acc hok hinv
    simp only [groupsOk] at hok
    obtain ⟨acc1, h1, hi1⟩ := collectParams_total gs v acc hok hinv
    exact ⟨acc1, by simp [collectParams, h1], hi1⟩
  | .grid_scatter v x y => by
    intro acc hok hinv
    simp only [groupsOk, Bool.and_eq_true] at hok
    obtain ⟨acc1, h1, hi1⟩ := collectParams_total gs v acc hok.1.1 hinv
    obtain ⟨acc2, h2, hi2⟩ := collectParams_total gs x acc1 hok.1.2 hi1
    obtain ⟨acc3, h3, hi3⟩ := collectParams_total gs y acc2 hok.2 hi2
    exact ⟨acc3, by simp [collectParams, h1, h2, h3], hi3⟩
  | .stencil v r k => by
    intro acc hok hinv
    simp only [groupsOk, Bool.and_eq_true] at hok
    obtain ⟨acc1, h1, hi1⟩ := collectParams_total gs v acc hok.1 hinv
    match k, hok.2 with
    | .none, _ => exact ⟨acc1, by simp [collectParams, collectParamsK, h1], hi1⟩
    | .some src body, hk =>
      have hbody : groupsOk gs body = true := by simpa [groupsOkK] using hk
      obtain ⟨acc2, h2, hi2⟩ := collectParams_total gs body acc1 hbody hi1
      exact ⟨acc2, by simp [collectParams, collectParamsK, h1, h2], hi2⟩
  | .grid_gather v x y => by
    intro acc hok hinv
    simp only [groupsOk, Bool.and_eq_true] at hok
    obtain ⟨acc1, h1, hi1⟩ := collectParams_total gs v acc hok.1.1 hinv
    obtain ⟨acc2, h2, hi2⟩ := collectParams_total gs x acc1 hok.1.2 hi1
    obtain ⟨acc3, h3, hi3⟩ := collectParams_total gs y acc2 hok.2 hi2
    exact ⟨acc3, by simp [collectParams, h1, h2, h3], hi3⟩
  | .cat vs d => by
    intro acc hok hinv
    simp only [groupsOk] at hok
    obtain ⟨acc1, h1, hi1⟩ := collectParamsList_total gs vs acc hok hinv
    exact ⟨acc1, by simp [collectParams, h1], hi1⟩
  | .slice v d s l => by
    intro acc hok hinv
    simp only [groupsOk] at hok
    obtain ⟨acc1, h1, hi1⟩ := collectParams_total gs v acc hok hinv
    exact ⟨acc1, by simp [collectParams, h1], hi1⟩

theorem collectParamsList_total (gs : List String) :
    (es : ExprList) → ∀ acc : ParamsAcc, groupsOkList gs es = true →
      (∀ g ∈ gs, (getAssoc acc g).isSome = true) →
      ∃ acc', collectParamsList es acc = .ok acc' ∧
        (∀ g ∈ gs, (getAssoc acc' g).isSome = true)
  | .nil => fun acc _ hinv => ⟨acc, rfl, hinv⟩
  | .cons e t => by
    intro acc hok hinv
    simp only [groupsOkList, Bool.and_eq_true] at hok
    obtain ⟨acc1, h1, hi1⟩ := collectParams_total gs e acc hok.1 hinv
    obtain ⟨acc2, h2, hi2⟩ := collectParamsList_total gs t acc1 hok.2 hi1
    exact ⟨acc2, by simp [collectParamsList, h1, h2], hi2⟩

end

theorem collectParamsRules_total (gs : List String) :
    (rules : List DynamicsRule) → ∀ acc : ParamsAcc,
      (∀ r ∈ rules, groupsOk gs r.expr = true) →
      (∀ g ∈ gs, (getAssoc acc g).isSome = true) →
      ∃ acc', collectParamsRules rules acc = .ok acc'
  | [] => fun acc _ _ => ⟨acc, rfl⟩
  | r :: rs => by
    intro acc hok hinv
    obtain ⟨acc1, h1, hi1⟩ :=
      collectParams_total gs r.expr acc (hok r (by simp)) hinv
    obtain ⟨acc2, h2⟩ := collectParamsRules_total gs rs acc1
      (fun r' hr' => hok r' (by simp [hr'])) hi1
    exact ⟨acc2, by simp [collectParamsRules, h1, h2]⟩

theorem compileRulesLoop_total :
    (rules : List DynamicsRule) → ∀ ctx,
      (∀ r ∈ rules, kernelsOk r.expr = true) →
      ∃ ctx', compileRulesLoop rules ctx = .ok ctx'
  | [] => fun ctx _ => ⟨ctx, rfl⟩
  | r :: rs => by
    intro ctx hok
    obtain ⟨v, ctx1, h1⟩ := compileExpression_total r.expr ctx (hok r (by simp))
    obtain ⟨ctx2, h2⟩ := compileRulesLoop_total rs
      ⟨ctx1.tempVarCounter, ctx1.operations ++ [mkOp r.target_state .add [v]],
       ctx1.varMap⟩ (fun r' hr' => hok r' (by simp [hr']))
    exact ⟨ctx2, by simp [compileRulesLoop, h1, h2]⟩

theorem passThroughLoop_total :
    (names : List String) → ∀ uset ctx,
      ∃ ctx', passThroughLoop names uset ctx = .ok ctx'
  | [] => fun _ ctx => ⟨ctx, rfl⟩
  | n :: t => by
    intro uset ctx
    by_cases hmem : n ∈ uset
    · obtain ⟨ctx', h⟩ := passThroughLoop_total t uset ctx
      exact ⟨ctx', by simp [passThroughLoop, hmem, h]⟩
    · obtain ⟨v, ctx1, h1⟩ :=
        compileExpression_total (.ref_state n) ctx rfl
      obtain ⟨ctx2, h2⟩ := passThroughLoop_total t uset
        ⟨ctx1.tempVarCounter, ctx1.operations ++ [mkOp n .add [v]], ctx1.varMap⟩
      exact ⟨ctx2, by simp [passThroughLoop, hmem, h1, h2]⟩

theorem firstMissingInit_none_iff :
    (l : List String) → ∀ st,
      (firstMissingInit l st = Option.none ↔
        ∀ n ∈ l, (getAssoc st n).isSome = true)
  | [] => by intro st; simp [firstMissingInit]
  | n :: t => by
    intro st
    cases hga : getAssoc st n with
    | some d =>
      rw [show firstMissingInit (n :: t) st = firstMissingInit t st by
        simp [firstMissingInit, hga]]
      rw [firstMissingInit_none_iff t st]
      constructor
      · intro h m hm
        rcases List.mem_cons.mp hm with rfl | hm'
        · simp [hga]
        · exact h m hm'
      · intro h m hm
        exact h m (by simp [hm])
    | none =>
      rw [show firstMissingInit (n :: t) st = Option.some n by
        simp [firstMissingInit, hga]]
      constructor
      · intro h; cases h
      · intro h
        have := h n (by simp)
        rw [hga] at this
        cases this

theorem firstMissingInit_some :
    (l : List String) → ∀ st v, firstMissingInit l st = Option.some v →
      v ∈ l ∧ getAssoc st v = Option.none
  | [] => by intro st v h; simp [firstMissingInit] at h
  | n :: t => by
    intro st v h
    cases hga : getAssoc st n with
    | some d =>
      rw [show firstMissingInit (n :: t) st = firstMissingInit t st by
        simp [firstMissingInit, hga]] at h
      obtain ⟨hm, hn⟩ := firstMissingInit_some t st v h
      exact ⟨by simp [hm], hn⟩
    | none =>
      rw [show firstMissingInit (n :: t) st = Option.some n by
        simp [firstMissingInit, hga]] at h
      cases h
      exact ⟨by simp, hga⟩

/-- C5: under the claim's hypotheses — every `ref_param` group known and
every stencil carrying a kernel — compilation fails **iff** some entry of
the computed `state_vars` list has no key in `INITIALIZATION.state`
(compiler.ts:459-464); the failure is an error naming a missing state var,
and `INITIALIZATION.state` keys outside `state_vars` are never consulted
(the success condition quantifies only over `state_vars` entries). -/
theorem compile_fails_iff_missing_initialization
    (rules : List DynamicsRule) (order : List String) (consts : SimConstants)
    (pg : ParameterGroups) (bc : List BoundaryCondition)
    (init : InitializationIR) (gc : Option GridConfig)
    (hker : ∀ r ∈ rules, kernelsOk r.expr = true)
    (hgrp : ∀ r ∈ rules, groupsOk [pg.ATTR.name, pg.PHYS.name] r.expr = true) :
    ((∃ ir, compileRules rules order consts pg bc init gc = .ok ir) ↔
      ∀ sv ∈ computeStateVars rules order,
        (getAssoc init.state sv).isSome = true) ∧
    (∀ er, compileRules rules order consts pg bc init gc = .error er →
      ∃ sv, er = .missingInit sv ∧ sv ∈ computeStateVars rules order ∧
        getAssoc init.state sv = Option.none) := by
  have hpp0 : ∀ g ∈ [pg.ATTR.name, pg.PHYS.name],
      (getAssoc (setAssoc (setAssoc ([] : ParamsAcc) pg.ATTR.name [])
        pg.PHYS.name []) g).isSome = true := by
    intro g hg
    rcases List.mem_cons.mp hg with rfl | hg'
    · exact getAssoc_setAssoc_isSome _ _ _ _
        (by simp [getAssoc_setAssoc_self])
    · rw [List.mem_singleton.mp hg']
      simp [getAssoc_setAssoc_self]
  obtain ⟨pp, hppeq⟩ :=
    collectParamsRules_total [pg.ATTR.name, pg.PHYS.name] rules _ hgrp hpp0
  obtain ⟨ctx1, hctx1⟩ := compileRulesLoop_total rules emptyCtx hker
  obtain ⟨ctx2, hctx2⟩ := passThroughLoop_total
    (orderLoop2 (sortStrings (collectRulesLoop rules [] []).1)
      (orderLoop1 order (collectRulesLoop rules [] []).1))
    (collectRulesLoop rules [] []).2 ctx1
  have hred : compileRules rules order consts pg bc init gc =
      (match firstMissingInit (computeStateVars rules order) init.state with
       | Option.some name => .error (.missingInit name)
       | Option.none =>
           .ok ⟨computeStateVars rules order, consts,
                sortParamsLoop pp
                  (setAssoc (setAssoc [] pg.ATTR.name
                      ⟨pg.ATTR.activation, []⟩)
                    pg.PHYS.name ⟨pg.PHYS.activation, []⟩),
                bc, gc, init, ctx2.operations⟩) := by
    simp only [compileRules, computeStateVars, hppeq, hctx1, hctx2]
  constructor
  · constructor
    · intro ⟨ir, hir⟩
      rw [hred] at hir
      cases hfm : firstMissingInit (computeStateVars rules order) init.state with
      | some nm => rw [hfm] at hir; cases hir
      | none => exact (firstMissingInit_none_iff _ _).mp hfm
    · intro hcov
      rw [hred]
      have hfm : firstMissingInit (computeStateVars rules order) init.state =
          Option.none := (firstMissingInit_none_iff _ _).mpr hcov
      rw [hfm]
      exact ⟨_, rfl⟩
  · intro er her
    rw [hred] at her
    cases hfm : firstMissingInit (computeStateVars rules order) init.state with
    | some nm =>
      rw [hfm] at her
      obtain ⟨hm, hnone⟩ := firstMissingInit_some _ _ _ hfm
      cases her
      exact ⟨nm, rfl, hm, hnone⟩
    | none => rw [hfm] at her; cases her

/-- Bundle used by the C5 witness: one rule whose expression also uses a
parameter of each group and a stencil with a kernel; initialization covers
every collected state var. -/
def c5Rules : List DynamicsRule :=
  [⟨"x", ops.add (ops.state "x")
      (ops.mul (ops.param "g" "physics")
        (.stencil (ops.state "x") 1 (.some "(c, n) => n" (ops.aux "neighbor"))))⟩]

/-- Witness for C5 at a concrete input: the bundle compiles iff its
(single) state var is covered, and it is covered. -/
theorem compile_fails_iff_missing_initialization_witness :
    (∃ ir, compileRules c5Rules ["x"] stdConsts stdGroups []
        ⟨[("x", .const 0)], .normal 0 1⟩ Option.none = .ok ir) ↔
      ∀ sv ∈ computeStateVars c5Rules ["x"],
        (getAssoc ([("x", Distribution.const 0)] : List (String × Distribution))
          sv).isSome = true :=
  (compile_fails_iff_missing_initialization c5Rules ["x"] stdConsts stdGroups
    [] ⟨[("x", .const 0)], .normal 0 1⟩ Option.none
    (by intro r hr; rw [List.mem_singleton.mp hr]; rfl)
    (by intro r hr; rw [List.mem_singleton.mp hr]; rfl)).1

/-! ### C9: the emitted operation list is topologically ordered

Every name in an operation's `args` is either the target of a strictly
earlier operation, a state column name `s_<id>`, or a `ref_aux` id of the
compiled expressions (a runtime-provided aux such as an interaction
output). -/

/-- Availability: `a` is available before position `|pre|`: produced by an earlier
operation, a state column, or an aux name from `A`. -/
def availP (pre : List Operation) (A : List String) (a : String) : Prop :=
  (∃ op ∈ pre, op.target = a) ∨ (∃ id, a = "s_" ++ id) ∨ a ∈ A

/-- The `GoodOpsR A pre rest`: every operation of `rest` reads only names
available from `pre` plus the operations before it within `rest` — the
topological-order property relative to the already-fixed prefix `pre`. -/
def GoodOpsR (A : List String) : List Operation → List Operation → Prop
  | _, [] => True
  | pre, op :: rest =>
      (∀ a ∈ op.args, availP pre A a) ∧ GoodOpsR A (pre ++ [op]) rest

/-- Both the operation list and every cached CSE variable are available. -/
def GoodCtx (A : List String) (ctx : CompilerContext) : Prop :=
  GoodOpsR A [] ctx.operations ∧
    ∀ p ∈ ctx.varMap, availP ctx.operations A p.2

theorem getAssoc_mem {α : Type} :
    (m : List (String × α)) → ∀ k v, getAssoc m k = Option.some v →
      (k, v) ∈ m
  | [] => by intro k v h; simp [getAssoc] at h
  | (k0, v0) :: t => by
      intro k v h
      simp only [getAssoc] at h
      split at h
      · rename_i heq
        cases h
        simp [heq]
      · simp [getAssoc_mem t k v h]

theorem availP_mono {pre Δ : List Operation} {A : List String} {a : String}
    (h : availP pre A a) : availP (pre ++ Δ) A a := by
  rcases h with ⟨op, hop, hto⟩ | h | h
  · exact Or.inl ⟨op, by simp [hop], hto⟩
  · exact Or.inr (Or.inl h)
  · exact Or.inr (Or.inr h)

theorem goodOpsR_append {A : List String} :
    (l : List Operation) → ∀ pre op, GoodOpsR A pre l →
      (∀ a ∈ op.args, availP (pre ++ l) A a) →
      GoodOpsR A pre (l ++ [op])
  | [] => by
    intro pre op _ hargs
    refine ⟨?_, trivial⟩
    intro a ha
    have := hargs a ha
    simpa using this
  | o :: t => by
    intro pre op h hargs
    refine ⟨h.1, ?_⟩
    refine goodOpsR_append t (pre ++ [o]) op h.2 ?_
    intro a ha
    have := hargs a ha
    simpa [List.append_assoc] using this

theorem emitTemp_good {A : List String} (ctx : CompilerContext) (key : String)
    (mk : String → Operation)
    (htarget : ∀ n, (mk n).target = n)
    (hargs : ∀ n, ∀ a ∈ (mk n).args, availP ctx.operations A a)
    (hgood : GoodCtx A ctx) :
    GoodCtx A (emitTemp ctx key mk).2 ∧
      availP (emitTemp ctx key mk).2.operations A (emitTemp ctx key mk).1 := by
  have hops : (emitTemp ctx key mk).2.operations =
      ctx.operations ++ [mk (tempName ctx)] := rfl
  have hname : availP (emitTemp ctx key mk).2.operations A (tempName ctx) := by
    rw [hops]
    exact Or.inl ⟨mk (tempName ctx), by simp, htarget _⟩
  refine ⟨⟨?_, ?_⟩, hname⟩
  · rw [hops]
    have := goodOpsR_append ctx.operations [] (mk (tempName ctx))
      (by simpa using hgood.1) (by simpa using hargs (tempName ctx))
    simpa using this
  · intro p hp
    rcases List.mem_cons.mp hp with rfl | hp'
    · exact hname
    · rw [hops]
      exact availP_mono (hgood.2 p hp')

/-! The `ref_aux` ids of an expression (excluding kernel bodies, whose
operations are embedded inside the stencil op, not in the outer list). -/

mutual

/-- The `ref_aux` ids occurring outside kernel bodies. -/
def auxTop : Expression → List String
  | .ref_aux id => [id]
  | .ref_state _ => []
  | .ref_param _ _ => []
  | .const _ => []
  | .binop _ l r => auxTop l ++ auxTop r
  | .whereOp c t f => auxTop c ++ auxTop t ++ auxTop f
  | .unop _ v => auxTop v
  | .transpose v _ _ => auxTop v
  | .sum v _ _ => auxTop v
  | .grid_scatter v x y => auxTop v ++ auxTop x ++ auxTop y
  | .stencil v _ _ => auxTop v
  | .grid_gather v x y => auxTop v ++ auxTop x ++ auxTop y
  | .cat vs _ => auxTopList vs
  | .slice v _ _ _ => auxTop v

/-- The `auxTop` over a `cat` element list. -/
def auxTopList : ExprList → List String
  | .nil => []
  | .cons e t => auxTop e ++ auxTopList t

end

/-- All `ref_aux` ids of the rules' expressions. -/
def auxRules : List DynamicsRule → List String
  | [] => []
  | r :: rs => auxTop r.expr ++ auxRules rs

mutual

theorem compileExpression_good (A : List String) :
    (e : Expression) → ∀ ctx v ctx',
      compileExpression e ctx = .ok (v, ctx') →
      (∀ x ∈ auxTop e, x ∈ A) →
      GoodCtx A ctx →
      GoodCtx A ctx' ∧ availP ctx'.operations A v
  | .ref_state id => by
    intro ctx v ctx' h _ hgood
    simp only [compileExpression] at h
    split at h
    · rename_i heq
      simp only [Except.ok.injEq, Prod.mk.injEq] at h
      obtain ⟨rfl, rfl⟩ := h
      exact ⟨hgood, hgood.2 _ (getAssoc_mem _ _ _ heq)⟩
    · simp only [Except.ok.injEq, Prod.mk.injEq] at h
      obtain ⟨rfl, rfl⟩ := h
      have hav : availP ctx.operations A ("s_" ++ id) := Or.inr (Or.inl ⟨id, rfl⟩)
      refine ⟨⟨hgood.1, ?_⟩, hav⟩
      intro p hp
      rcases List.mem_cons.mp hp with rfl | hp'
      · exact hav
      · exact hgood.2 p hp'
  | .ref_param id group => by
    intro ctx v ctx' h _ hgood
    simp only [compileExpression] at h
    split at h
    · rename_i heq
      simp only [Except.ok.injEq, Prod.mk.injEq] at h
      obtain ⟨rfl, rfl⟩ := h
      exact ⟨hgood, hgood.2 _ (getAssoc_mem _ _ _ heq)⟩
    · simp only [Except.ok.injEq, Prod.mk.injEq] at h
      obtain ⟨rfl, rfl⟩ := h
      have hav : availP (ctx.operations ++
          [Operation.mk ("p_" ++ id) .ref_param [] Option.none
            (Option.some (id, group)) Option.none Option.none Option.none
            Option.none Option.none Option.none Option.none Option.none])
          A ("p_" ++ id) :=
        Or.inl ⟨Operation.mk ("p_" ++ id) .ref_param [] Option.none
            (Option.some (id, group)) Option.none Option.none Option.none
            Option.none Option.none Option.none Option.none Option.none,
          by simp, rfl⟩
      refine ⟨⟨?_, ?_⟩, hav⟩
      · have := goodOpsR_append ctx.operations []
          (Operation.mk ("p_" ++ id) .ref_param [] Option.none
            (Option.some (id, group)) Option.none Option.none Option.none
            Option.none Option.none Option.none Option.none Option.none)
          (by simpa using hgood.1) (by simp [Operation.args])
        simpa using this
      · intro p hp
        rcases List.mem_cons.mp hp with rfl | hp'
        · exact hav
        · exact availP_mono (hgood.2 p hp')
  | .ref_aux id => by
    intro ctx v ctx' h hsub hgood
    simp only [compileExpression] at h
    split at h
    · rename_i heq
      simp only [Except.ok.injEq, Prod.mk.injEq] at h
      obtain ⟨rfl, rfl⟩ := h
      exact ⟨hgood, hgood.2 _ (getAssoc_mem _ _ _ heq)⟩
    · simp only [Except.ok.injEq, Prod.mk.injEq] at h
      obtain ⟨rfl, rfl⟩ := h
      have hav : availP ctx.operations A id :=
        Or.inr (Or.inr (hsub id (by simp [auxTop])))
      refine ⟨⟨hgood.1, ?_⟩, hav⟩
      intro p hp
      rcases List.mem_cons.mp hp with rfl | hp'
      · exact hav
      · exact hgood.2 p hp'
  | .const val => by
    intro ctx v ctx' h _ hgood
    simp only [compileExpression] at h
    split at h
    · rename_i heq
      simp only [Except.ok.injEq, Prod.mk.injEq] at h
      obtain ⟨rfl, rfl⟩ := h
      exact ⟨hgood, hgood.2 _ (getAssoc_mem _ _ _ heq)⟩
    · simp only [Except.ok.injEq] at h
      rw [Prod.ext_iff] at h
      obtain ⟨hv, hctx⟩ := h
      subst hv
      subst hctx
      exact emitTemp_good ctx _ _ (fun n => rfl) (by simp [Operation.args]) hgood
  | .binop bk l r => by
    intro ctx v ctx' h hsub hgood
    simp only [compileExpression] at h
    split at h
    · rename_i heq
      simp only [Except.ok.injEq, Prod.mk.injEq] at h
      obtain ⟨rfl, rfl⟩ := h
      exact ⟨hgood, hgood.2 _ (getAssoc_mem _ _ _ heq)⟩
    · split at h
      · exact absurd h (by simp)
      · rename_i lv ctx1 heql
        split at h
        · exact absurd h (by simp)
        · rename_i rv ctx2 heqr
          simp only [Except.ok.injEq] at h
          rw [Prod.ext_iff] at h
          obtain ⟨hv, hctx⟩ := h
          subst hv
          subst hctx
          obtain ⟨hg1, ha1⟩ := compileExpression_good A l ctx lv ctx1 heql
            (fun x hx => hsub x (by simp [auxTop, hx])) hgood
          obtain ⟨hg2, ha2⟩ := compileExpression_good A r ctx1 rv ctx2 heqr
            (fun x hx => hsub x (by simp [auxTop, hx])) hg1
          obtain ⟨Δ2, hΔ2, _⟩ := compileExpression_ops_append r ctx1 rv ctx2 heqr
          refine emitTemp_good ctx2 _ _ (fun n => rfl) ?_ hg2
          intro n a ha
          simp only [mkOp, Operation.args] at ha
          rcases List.mem_cons.mp ha with rfl | ha'
          · rw [hΔ2]
            exact availP_mono ha1
          · rw [List.mem_singleton.mp ha']
            exact ha2
  | .whereOp c t f => by
    intro ctx v ctx' h hsub hgood
    simp only [compileExpression] at h
    split at h
    · rename_i heq
      simp only [Except.ok.injEq, Prod.mk.injEq] at h
      obtain ⟨rfl, rfl⟩ := h
      exact ⟨hgood, hgood.2 _ (getAssoc_mem _ _ _ heq)⟩
    · split at h
      · exact absurd h (by simp)
      · rename_i cv ctx1 heqc
        split at h
        · exact absurd h (by simp)
        · rename_i tv ctx2 heqt
          split at h
          · exact absurd h (by simp)
          · rename_i fv ctx3 heqf
            simp only [Except.ok.injEq] at h
            rw [Prod.ext_iff] at h
            obtain ⟨hv, hctx⟩ := h
            subst hv
            subst hctx
            obtain ⟨hg1, ha1⟩ := compileExpression_good A c ctx cv ctx1 heqc
              (fun x hx => hsub x (by simp [auxTop, hx])) hgood
            obtain ⟨hg2, ha2⟩ := compileExpression_good A t ctx1 tv ctx2 heqt
              (fun x hx => hsub x (by simp [auxTop, hx])) hg1
            obtain ⟨hg3, ha3⟩ := compileExpression_good A f ctx2 fv ctx3 heqf
              (fun x hx => hsub x (by simp [auxTop, hx])) hg2
            obtain ⟨Δ2, hΔ2, _⟩ := compileExpression_ops_append t ctx1 tv ctx2 heqt
            obtain ⟨Δ3, hΔ3, _⟩ := compileExpression_ops_append f ctx2 fv ctx3 heqf
            refine emitTemp_good ctx3 _ _ (fun n => rfl) ?_ hg3
            intro n a ha
            simp only [mkOp, Operation.args] at ha
            rcases List.mem_cons.mp ha with rfl | ha'
            · rw [hΔ3, hΔ2, List.append_assoc]
              exact availP_mono ha1
            rcases List.mem_cons.mp ha' with rfl | ha''
            · rw [hΔ3]
              exact availP_mono ha2
            · rw [List.mem_singleton.mp ha'']
              exact ha3
  | .unop uk val => by
    intro ctx v ctx' h hsub hgood
    simp only [compileExpression] at h
    split at h
    · rename_i heq
      simp only [Except.ok.injEq, Prod.mk.injEq] at h
      obtain ⟨rfl, rfl⟩ := h
      exact ⟨hgood, hgood.2 _ (getAssoc_mem _ _ _ heq)⟩
    · split at h
      · exact absurd h (by simp)
      · rename_i vv ctx1 heqv
        simp only [Except.ok.injEq] at h
        rw [Prod.ext_iff] at h
        obtain ⟨hv, hctx⟩ := h
        subst hv
        subst hctx
        obtain ⟨hg1, ha1⟩ := compileExpression_good A val ctx vv ctx1 heqv
          (fun x hx => hsub x (by simp [auxTop, hx])) hgood
        refine emitTemp_good ctx1 _ _ (fun n => rfl) ?_ hg1
        intro n a ha
        simp only [mkOp, Operation.args] at ha
        rw [List.mem_singleton.mp ha]
        exact ha1
  | .transpose val d0 d1 => by
    intro ctx v ctx' h hsub hgood
    simp only [compileExpression] at h
    split at h
    · rename_i heq
      simp only [Except.ok.injEq, Prod.mk.injEq] at h
      obtain ⟨rfl, rfl⟩ := h
      exact ⟨hgood, hgood.2 _ (getAssoc_mem _ _ _ heq)⟩
    · split at h
      · exact absurd h (by simp)
      · rename_i vv ctx1 heqv
        simp only [Except.ok.injEq] at h
        rw [Prod.ext_iff] at h
        obtain ⟨hv, hctx⟩ := h
        subst hv
        subst hctx
        obtain ⟨hg1, ha1⟩ := compileExpression_good A val ctx vv ctx1 heqv
          (fun x hx => hsub x (by simp [auxTop, hx])) hgood
        refine emitTemp_good ctx1 _ _ (fun n => rfl) ?_ hg1
        intro n a ha
        simp only [Operation.args] at ha
        rw [List.mem_singleton.mp ha]
        exact ha1
  | .sum val d k => by
    intro ctx v ctx' h hsub hgood
    simp only [compileExpression] at h
    split at h
    · rename_i heq
      simp only [Except.ok.injEq, Prod.mk.injEq] at h
      obtain ⟨rfl, rfl⟩ := h
      exact ⟨hgood, hgood.2 _ (getAssoc_mem _ _ _ heq)⟩
    · split at h
      · exact absurd h (by simp)
      · rename_i vv ctx1 heqv
        simp only [Except.ok.injEq] at h
        rw [Prod.ext_iff] at h
        obtain ⟨hv, hctx⟩ := h
        subst hv
        subst hctx
        obtain ⟨hg1, ha1⟩ := compileExpression_good A val ctx vv ctx1 heqv
          (fun x hx => hsub x (by simp [auxTop, hx])) hgood
        refine emitTemp_good ctx1 _ _ (fun n => rfl) ?_ hg1
        intro n a ha
        simp only [Operation.args] at ha
        rw [List.mem_singleton.mp ha]
        exact ha1
  | .grid_scatter val x y => by
    intro ctx v ctx' h hsub hgood
    simp only [compileExpression] at h
    split at h
    · rename_i heq
      simp only [Except.ok.injEq, Prod.mk.injEq] at h
      obtain ⟨rfl, rfl⟩ := h
      exact ⟨hgood, hgood.2 _ (getAssoc_mem _ _ _ heq)⟩
    · split at h
      · exact absurd h (by simp)
      · rename_i vv ctx1 heqv
        split at h
        · exact absurd h (by simp)
        · rename_i xv ctx2 heqx
          split at h
          · exact absurd h (by simp)
          · rename_i yv ctx3 heqy
            simp only [Except.ok.injEq] at h
            rw [Prod.ext_iff] at h
            obtain ⟨hv, hctx⟩ := h
            subst hv
            subst hctx
            obtain ⟨hg1, ha1⟩ := compileExpression_good A val ctx vv ctx1 heqv
              (fun z hz => hsub z (by simp [auxTop, hz])) hgood
            obtain ⟨hg2, ha2⟩ := compileExpression_good A x ctx1 xv ctx2 heqx
              (fun z hz => hsub z (by simp [auxTop, hz])) hg1
            obtain ⟨hg3, ha3⟩ := compileExpression_good A y ctx2 yv ctx3 heqy
              (fun z hz => hsub z (by simp [auxTop, hz])) hg2
            obtain ⟨Δ2, hΔ2, _⟩ := compileExpression_ops_append x ctx1 xv ctx2 heqx
            obtain ⟨Δ3, hΔ3, _⟩ := compileExpression_ops_append y ctx2 yv ctx3 heqy
            refine emitTemp_good ctx3 _ _ (fun n => rfl) ?_ hg3
            intro n a ha
            simp only [mkOp, Operation.args] at ha
            rcases List.mem_cons.mp ha with rfl | ha'
            · rw [hΔ3, hΔ2, List.append_assoc]
              exact availP_mono ha1
            rcases List.mem_cons.mp ha' with rfl | ha''
            · rw [hΔ3]
              exact availP_mono ha2
            · rw [List.mem_singleton.mp ha'']
              exact ha3
  | .stencil val r k => by
    intro ctx v ctx' h hsub hgood
    cases k with
    | none => exact absurd h (by simp [compileExpression])
    | some src body =>
      simp only [compileExpression] at h
      split at h
      · rename_i heq
        simp only [Except.ok.injEq, Prod.mk.injEq] at h
        obtain ⟨rfl, rfl⟩ := h
        exact ⟨hgood, hgood.2 _ (getAssoc_mem _ _ _ heq)⟩
      · split at h
        · exact absurd h (by simp)
        · rename_i vv ctx1 heqv
          split at h
          · exact absurd h (by simp)
          · rename_i kv kctx heqk
            simp only [Except.ok.injEq] at h
            rw [Prod.ext_iff] at h
            obtain ⟨hv, hctx⟩ := h
            subst hv
            subst hctx
            obtain ⟨hg1, ha1⟩ := compileExpression_good A val ctx vv ctx1 heqv
              (fun z hz => hsub z (by simp [auxTop, hz])) hgood
            refine emitTemp_good ctx1 _ _ (fun n => rfl) ?_ hg1
            intro n a ha
            simp only [Operation.args] at ha
            rw [List.mem_singleton.mp ha]
            exact ha1
  | .grid_gather val x y => by
    intro ctx v ctx' h hsub hgood
    simp only [compileExpression] at h
    split at h
    · rename_i heq
      simp only [Except.ok.injEq, Prod.mk.injEq] at h
      obtain ⟨rfl, rfl⟩ := h
      exact ⟨hgood, hgood.2 _ (getAssoc_mem _ _ _ heq)⟩
    · split at h
      · exact absurd h (by simp)
      · rename_i vv ctx1 heqv
        split at h
        · exact absurd h (by simp)
        · rename_i xv ctx2 heqx
          split at h
          · exact absurd h (by simp)
          · rename_i yv ctx3 heqy
            simp only [Except.ok.injEq] at h
            rw [Prod.ext_iff] at h
            obtain ⟨hv, hctx⟩ := h
            subst hv
            subst hctx
            obtain ⟨hg1, ha1⟩ := compileExpression_good A val ctx vv ctx1 heqv
              (fun z hz => hsub z (by simp [auxTop, hz])) hgood
            obtain ⟨hg2, ha2⟩ := compileExpression_good A x ctx1 xv ctx2 heqx
              (fun z hz => hsub z (by simp [auxTop, hz])) hg1
            obtain ⟨hg3, ha3⟩ := compileExpression_good A y ctx2 yv ctx3 heqy
              (fun z hz => hsub z (by simp [auxTop, hz])) hg2
            obtain ⟨Δ2, hΔ2, _⟩ := compileExpression_ops_append x ctx1 xv ctx2 heqx
            obtain ⟨Δ3, hΔ3, _⟩ := compileExpression_ops_append y ctx2 yv ctx3 heqy
            refine emitTemp_good ctx3 _ _ (fun n => rfl) ?_ hg3
            intro n a ha
            simp only [mkOp, Operation.args] at ha
            rcases List.mem_cons.mp ha with rfl | ha'
            · rw [hΔ3, hΔ2, List.append_assoc]
              exact availP_mono ha1
            rcases List.mem_cons.mp ha' with rfl | ha''
            · rw [hΔ3]
              exact availP_mono ha2
            · rw [List.mem_singleton.mp ha'']
              exact ha3
  | .cat vs d => by
    intro ctx v ctx' h hsub hgood
    simp only [compileExpression] at h
    split at h
    · rename_i heq
      simp only [Except.ok.injEq, Prod.mk.injEq] at h
      obtain ⟨rfl, rfl⟩ := h
      exact ⟨hgood, hgood.2 _ (getAssoc_mem _ _ _ heq)⟩
    · split at h
      · exact absurd h (by simp)
      · rename_i avs ctx1 heqv
        simp only [Except.ok.injEq] at h
        rw [Prod.ext_iff] at h
        obtain ⟨hv, hctx⟩ := h
        subst hv
        subst hctx
        obtain ⟨hg1, ha1⟩ := compileExprList_good A vs ctx avs ctx1 heqv
          (fun z hz => hsub z (by simp [auxTop, hz])) hgood
        refine emitTemp_good ctx1 _ _ (fun n => rfl) ?_ hg1
        intro n a ha
        simp only [Operation.args] at ha
        exact ha1 a ha
  | .slice val d s l => by
    intro ctx v ctx' h hsub hgood
    simp only [compileExpression] at h
    split at h
    · rename_i heq
      simp only [Except.ok.injEq, Prod.mk.injEq] at h
      obtain ⟨rfl, rfl⟩ := h
      exact ⟨hgood, hgood.2 _ (getAssoc_mem _ _ _ heq)⟩
    · split at h
      · exact absurd h (by simp)
      · rename_i vv ctx1 heqv
        simp only [Except.ok.injEq] at h
        rw [Prod.ext_iff] at h
        obtain ⟨hv, hctx⟩ := h
        subst hv
        subst hctx
        obtain ⟨hg1, ha1⟩ := compileExpression_good A val ctx vv ctx1 heqv
          (fun z hz => hsub z (by simp [auxTop, hz])) hgood
        refine emitTemp_good ctx1 _ _ (fun n => rfl) ?_ hg1
        intro n a ha
        simp only [Operation.args] at ha
        rw [List.mem_singleton.mp ha]
        exact ha1

theorem compileExprList_good (A : List String) :
    (es : ExprList) → ∀ ctx vs ctx',
      compileExprList es ctx = .ok (vs, ctx') →
      (∀ x ∈ auxTopList es, x ∈ A) →
      GoodCtx A ctx →
      GoodCtx A ctx' ∧ ∀ a ∈ vs, availP ctx'.operations A a
  | .nil => by
    intro ctx vs ctx' h _ hgood
    simp only [compileExprList, Except.ok.injEq] at h
    rw [Prod.ext_iff] at h
    obtain ⟨hv, hctx⟩ := h
    subst hv
    subst hctx
    exact ⟨hgood, by simp⟩
  | .cons e t => by
    intro ctx vs ctx' h hsub hgood
    simp only [compileExprList] at h
    split at h
    · exact absurd h (by simp)
    · rename_i v1 ctx1 heq1
      split at h
      · exact absurd h (by simp)
      · rename_i vt ctx2 heq2
        simp only [Except.ok.injEq] at h
        rw [Prod.ext_iff] at h
        obtain ⟨hv, hctx⟩ := h
        subst hv
        subst hctx
        obtain ⟨hg1, ha1⟩ := compileExpression_good A e ctx v1 ctx1 heq1
          (fun z hz => hsub z (by simp [auxTopList, hz])) hgood
        obtain ⟨hg2, ha2⟩ := compileExprList_good A t ctx1 vt ctx2 heq2
          (fun z hz => hsub z (by simp [auxTopList, hz])) hg1
        obtain ⟨Δ2, hΔ2, _⟩ := compileExprList_ops_append t ctx1 vt ctx2 heq2
        refine ⟨hg2, ?_⟩
        intro a ha
        rcases List.mem_cons.mp ha with rfl | ha'
        · rw [hΔ2]
          exact availP_mono ha1
        · exact ha2 a ha'

end

theorem auxTop_sub_auxRules :
    (rules : List DynamicsRule) → ∀ r ∈ rules, ∀ x ∈ auxTop r.expr,
      x ∈ auxRules rules
  | [] => by intro r hr; cases hr
  | r0 :: rs => by
      intro r hr x hx
      rcases List.mem_cons.mp hr with rfl | hr'
      · simp [auxRules, hx]
      · simp [auxRules, auxTop_sub_auxRules rs r hr' x hx]

theorem compileRulesLoop_good (A : List String) :
    (rules : List DynamicsRule) → ∀ ctx ctx',
      compileRulesLoop rules ctx = .ok ctx' →
      (∀ r ∈ rules, ∀ x ∈ auxTop r.expr, x ∈ A) →
      GoodCtx A ctx → GoodCtx A ctx'
  | [] => by
      intro ctx ctx' h _ hgood
      simp only [compileRulesLoop, Except.ok.injEq] at h
      subst h
      exact hgood
  | r :: rs => by
      intro ctx ctx' h hsub hgood
      simp only [compileRulesLoop] at h
      split at h
      · exact absurd h (by simp)
      · rename_i v ctx1 heq
        obtain ⟨hg1, ha1⟩ := compileExpression_good A r.expr ctx v ctx1 heq
          (hsub r (by simp)) hgood
        refine compileRulesLoop_good A rs _ ctx' h
          (fun r' hr' => hsub r' (by simp [hr'])) ⟨?_, ?_⟩
        · have := goodOpsR_append ctx1.operations []
            (mkOp r.target_state .add [v]) (by simpa using hg1.1)
            (by
              intro a ha
              simp only [mkOp, Operation.args] at ha
              rw [List.mem_singleton.mp ha]
              simpa using ha1)
          simpa using this
        · intro p hp
          exact availP_mono (hg1.2 p hp)

theorem passThroughLoop_good (A : List String) :
    (names : List String) → ∀ uset ctx ctx',
      passThroughLoop names uset ctx = .ok ctx' →
      GoodCtx A ctx → GoodCtx A ctx'
  | [] => by
      intro uset ctx ctx' h hgood
      simp only [passThroughLoop, Except.ok.injEq] at h
      subst h
      exact hgood
  | n :: t => by
      intro uset ctx ctx' h hgood
      simp only [passThroughLoop] at h
      split at h
      · exact passThroughLoop_good A t uset ctx ctx' h hgood
      · split at h
        · exact absurd h (by simp)
        · rename_i v ctx1 heq
          obtain ⟨hg1, ha1⟩ := compileExpression_good A (.ref_state n) ctx v
            ctx1 heq (by intro x hx; simp [auxTop] at hx) hgood
          refine passThroughLoop_good A t uset _ ctx' h ⟨?_, ?_⟩
          · have := goodOpsR_append ctx1.operations [] (mkOp n .add [v])
              (by simpa using hg1.1)
              (by
                intro a ha
                simp only [mkOp, Operation.args] at ha
                rw [List.mem_singleton.mp ha]
                simpa using ha1)
            simpa using this
          · intro p hp
            exact availP_mono (hg1.2 p hp)

/-- C9: in a successful compilation, the emitted operation list is
topologically ordered: every name occurring in an operation's `args` is
either a state column name `s_<id>`, a `ref_aux` id of the rules'
expressions (a runtime-provided aux such as an interaction output), or the
target of an operation strictly earlier in the list (`GoodOpsR` unwinds to
exactly that, position by position). -/
theorem operations_topologically_ordered
    (rules : List DynamicsRule) (order : List String) (consts : SimConstants)
    (pg : ParameterGroups) (bc : List BoundaryCondition)
    (init : InitializationIR) (gc : Option GridConfig) (ir : OutputIR)
    (h : compileRules rules order consts pg bc init gc = .ok ir) :
    GoodOpsR (auxRules rules) [] ir.operations := by
  simp only [compileRules] at h
  split at h
  · exact absurd h (by simp)
  · split at h
    · exact absurd h (by simp)
    · rename_i ctx1 heq1
      split at h
      · exact absurd h (by simp)
      · rename_i ctx2 heq2
        split at h
        · exact absurd h (by simp)
        · simp only [Except.ok.injEq] at h
          subst h
          have hgood0 : GoodCtx (auxRules rules) emptyCtx := by
            refine ⟨trivial, ?_⟩
            intro p hp
            simp [emptyCtx] at hp
          have hg1 := compileRulesLoop_good (auxRules rules) rules emptyCtx
            ctx1 heq1 (auxTop_sub_auxRules rules) hgood0
          have hg2 := passThroughLoop_good (auxRules rules) _ _ ctx1 ctx2
            heq2 hg1
          exact hg2.1

/-- Bundle for the C9 witness: state, param, aux and a kernel stencil all
appear. -/
def c9Rules : List DynamicsRule :=
  [⟨"vx", ops.add (ops.state "vx")
      (ops.mul (ops.aux "fx") (ops.param "g" "physics"))⟩]

/-- Its compiled IR. -/
def c9IR : OutputIR :=
  okOr (compileRules c9Rules ["vx"] stdConsts stdGroups []
    ⟨[("vx", .const 0)], .normal 0 1⟩ Option.none) default

/-- Witness for C9 at a concrete input. -/
theorem operations_topologically_ordered_witness :
    GoodOpsR (auxRules c9Rules) [] c9IR.operations :=
  operations_topologically_ordered c9Rules ["vx"] stdConsts stdGroups []
    ⟨[("vx", .const 0)], .normal 0 1⟩ Option.none c9IR rfl

/-! ### C6: group parameter lists

Spec-side reference collector (spec §4.2 step 2): a `ref_param` with id `id`
citing group `g` occurring *anywhere* in an expression, including `where`
branches, `cat` elements, and the synthetic kernel expansion of a stencil
that carries a kernel. -/

mutual

/-- Does `ref_param(id, g)` occur anywhere in the expression? -/
def refParamB (g id : String) : Expression → Bool
  | .ref_param id' group' => (id' == id) && (group' == g)
  | .ref_state _ => false
  | .ref_aux _ => false
  | .const _ => false
  | .binop _ l r => refParamB g id l || refParamB g id r
  | .whereOp c t f => refParamB g id c || refParamB g id t || refParamB g id f
  | .unop _ v => refParamB g id v
  | .transpose v _ _ => refParamB g id v
  | .sum v _ _ => refParamB g id v
  | .grid_scatter v x y => refParamB g id v || refParamB g id x || refParamB g id y
  | .stencil v _ k => refParamB g id v || refParamK g id k
  | .grid_gather v x y => refParamB g id v || refParamB g id x || refParamB g id y
  | .cat vs _ => refParamList g id vs
  | .slice v _ _ _ => refParamB g id v

/-- Occurrence inside a kernel body (an absent kernel references nothing). -/
def refParamK (g id : String) : KernelOpt → Bool
  | .none => false
  | .some _ body => refParamB g id body

/-- Occurrence in a `cat` element list. -/
def refParamList (g id : String) : ExprList → Bool
  | .nil => false
  | .cons e t => refParamB g id e || refParamList g id t

end

/-- Occurrence in any rule's expression. -/
def refParamRules (g id : String) : List DynamicsRule → Bool
  | [] => false
  | r :: rs => refParamB g id r.expr || refParamRules g id rs

theorem getAssoc_eq_none_iff {α : Type} :
    (m : List (String × α)) → ∀ k,
      (getAssoc m k = Option.none ↔ k ∉ m.map Prod.fst)
  | [] => by intro k; simp [getAssoc]
  | (k0, v0) :: t => by
      intro k
      simp only [getAssoc, List.map_cons, List.mem_cons]
      split
      · rename_i heq
        subst heq
        simp
      · rename_i hne
        rw [getAssoc_eq_none_iff t k]
        constructor
        · intro h hc
          rcases hc with hc | hc
          · exact hne hc.symm
          · exact h hc
        · intro h hc
          exact h (Or.inr hc)

theorem getAssoc_isSome_iff {α : Type} (m : List (String × α)) (k : String) :
    (getAssoc m k).isSome = true ↔ k ∈ m.map Prod.fst := by
  rw [← not_iff_not, ← getAssoc_eq_none_iff m k]
  cases getAssoc m k <;> simp

/-- The behaviour of a successful `collectParams`-style pass for an
occurrence predicate `p`: keys unchanged, each group's set grows by exactly
the `p`-occurrences, duplicate-freeness preserved, and every `p`-occurrence
cites a known group. -/
def CPS (p : String → String → Bool) (acc acc' : ParamsAcc) : Prop :=
  acc'.map Prod.fst = acc.map Prod.fst ∧
  (∀ g l l', getAssoc acc g = Option.some l →
    getAssoc acc' g = Option.some l' →
    ((∀ id, id ∈ l' ↔ (id ∈ l ∨ p g id = true)) ∧ (l.Nodup → l'.Nodup))) ∧
  (∀ g id, p g id = true → (getAssoc acc g).isSome = true)

theorem CPS_refl {p : String → String → Bool}
    (h : ∀ g id, p g id = false) (acc : ParamsAcc) : CPS p acc acc := by
  refine ⟨rfl, ?_, ?_⟩
  · intro g l l' h1 h2
    rw [h1] at h2
    cases h2
    exact ⟨fun id => by simp [h g id], fun hn => hn⟩
  · intro g id hp
    rw [h g id] at hp
    cases hp

theorem CPS_chain {p q r : String → String → Bool} {acc acc1 acc' : ParamsAcc}
    (hr : ∀ g id, r g id = (p g id || q g id))
    (h1 : CPS p acc acc1) (h2 : CPS q acc1 acc') : CPS r acc acc' := by
  obtain ⟨hk1, hm1, hs1⟩ := h1
  obtain ⟨hk2, hm2, hs2⟩ := h2
  refine ⟨hk2.trans hk1, ?_, ?_⟩
  · intro g l l' hl hl'
    have hg1 : (getAssoc acc1 g).isSome = true := by
      rw [getAssoc_isSome_iff, hk1, ← getAssoc_isSome_iff, hl]
      rfl
    obtain ⟨l1, hl1⟩ : ∃ l1, getAssoc acc1 g = Option.some l1 := by
      cases hh : getAssoc acc1 g with
      | none => rw [hh] at hg1; cases hg1
      | some w => exact ⟨w, rfl⟩
    obtain ⟨hiff1, hnd1⟩ := hm1 g l l1 hl hl1
    obtain ⟨hiff2, hnd2⟩ := hm2 g l1 l' hl1 hl'
    refine ⟨?_, fun hn => hnd2 (hnd1 hn)⟩
    intro id
    rw [hiff2, hiff1, hr]
    constructor
    · rintro ((h | h) | h)
      · exact Or.inl h
      · exact Or.inr (by simp [h])
      · exact Or.inr (by simp [h])
    · rintro (h | h)
      · exact Or.inl (Or.inl h)
      · rcases Bool.or_eq_true_iff.mp h with h' | h'
        · exact Or.inl (Or.inr h')
        · exact Or.inr h'
  · intro g id hrp
    rw [hr] at hrp
    rcases Bool.or_eq_true_iff.mp hrp with h | h
    · exact hs1 g id h
    · have := hs2 g id h
      rw [getAssoc_isSome_iff, hk1, ← getAssoc_isSome_iff] at this
      exact this

/-- The behaviour of a failing `collectParams`-style pass: the error names a
group that is unknown in the accumulator and actually referenced. -/
def CPE (p : String → String → Bool) (acc : ParamsAcc) (er : CompileError) :
    Prop :=
  ∃ g, er = .unknownGroup g ∧ getAssoc acc g = Option.none ∧
    ∃ id, p g id = true

theorem CPE_mono {p q : String → String → Bool} {acc : ParamsAcc}
    {er : CompileError} (himp : ∀ g id, p g id = true → q g id = true)
    (h : CPE p acc er) : CPE q acc er := by
  obtain ⟨g, he, hn, id, hp⟩ := h
  exact ⟨g, he, hn, id, himp g id hp⟩

theorem CPE_chain {p q : String → String → Bool} {acc acc1 : ParamsAcc}
    {er : CompileError} (h1 : CPS p acc acc1) (h2 : CPE q acc1 er) :
    CPE (fun g id => p g id || q g id) acc er := by
  obtain ⟨g, he, hn, id, hq⟩ := h2
  refine ⟨g, he, ?_, id, by simp [hq]⟩
  rw [getAssoc_eq_none_iff] at hn ⊢
  rw [← h1.1]
  exact hn

theorem setAssoc_keys_eq {α : Type} :
    (m : List (String × α)) → ∀ k v w, getAssoc m k = Option.some w →
      (setAssoc m k v).map Prod.fst = m.map Prod.fst
  | [] => by intro k v w h; simp [getAssoc] at h
  | (k0, v0) :: t => by
      intro k v w h
      simp only [getAssoc] at h
      split at h
      · rename_i heq
        subst heq
        simp [setAssoc]
      · rename_i hne
        simp only [setAssoc, if_neg hne, List.map_cons]
        rw [setAssoc_keys_eq t k v w h]

mutual

theorem collectParams_ok_spec :
    (e : Expression) → ∀ acc acc', collectParams e acc = .ok acc' →
      CPS (fun g id => refParamB g id e) acc acc'
  | .ref_state _ => by
    intro acc acc' h
    simp only [collectParams, Except.ok.injEq] at h
    subst h
    exact CPS_refl (fun g id => rfl) acc
  | .ref_aux _ => by
    intro acc acc' h
    simp only [collectParams, Except.ok.injEq] at h
    subst h
    exact CPS_refl (fun g id => rfl) acc
  | .const _ => by
    intro acc acc' h
    simp only [collectParams, Except.ok.injEq] at h
    subst h
    exact CPS_refl (fun g id => rfl) acc
  | .ref_param id0 group0 => by
    intro acc acc' h
    simp only [collectParams] at h
    split at h
    · exact absurd h (by simp)
    · rename_i s hga
      simp only [Except.ok.injEq] at h
      subst h
      refine ⟨setAssoc_keys_eq acc group0 _ s hga, ?_, ?_⟩
      · intro g l l' hl hl'
        by_cases hg : g = group0
        · subst hg
          rw [hga] at hl
          cases hl
          rw [getAssoc_setAssoc_self] at hl'
          cases hl'
          refine ⟨?_, fun hn => addSet_nodup hn⟩
          intro id
          rw [addSet_mem]
          simp only [refParamB, Bool.and_eq_true, beq_iff_eq]
          aesop
        · rw [getAssoc_setAssoc_other acc group0 g _ hg] at hl'
          rw [hl] at hl'
          cases hl'
          refine ⟨?_, fun hn => hn⟩
          intro id
          simp only [refParamB, Bool.and_eq_true, beq_iff_eq]
          constructor
          · exact Or.inl
          · rintro (h | ⟨h1, h2⟩)
            · exact h
            · exact absurd h2 (fun hc => hg hc.symm)
      · intro g id hp
        simp only [refParamB, Bool.and_eq_true, beq_iff_eq] at hp
        rw [← hp.2, hga]
        rfl
  | .binop bk l r => by
    intro acc acc' h
    simp only [collectParams] at h
    split at h
    · exact absurd h (by simp)
    · rename_i acc1 heq1
      exact CPS_chain (fun g id => rfl)
        (collectParams_ok_spec l acc acc1 heq1)
        (collectParams_ok_spec r acc1 acc' h)
  | .whereOp c t f => by
    intro acc acc' h
    simp only [collectParams] at h
    split at h
    · exact absurd h (by simp)
    · rename_i acc1 heq1
      split at h
      · exact absurd h (by simp)
      · rename_i acc2 heq2
        exact CPS_chain (fun g id => rfl)
          (CPS_chain (fun g id => rfl)
            (collectParams_ok_spec c acc acc1 heq1)
            (collectParams_ok_spec t acc1 acc2 heq2))
          (collectParams_ok_spec f acc2 acc' h)
  | .unop uk v => fun acc acc' h => collectParams_ok_spec v acc acc' h
  | .transpose v d0 d1 => fun acc acc' h => collectParams_ok_spec v acc acc' h
  | .sum v d k => fun acc acc' h => collectParams_ok_spec v acc acc' h
  | .slice v d s l => fun acc acc' h => collectParams_ok_spec v acc acc' h
  | .grid_scatter v x y => by
    intro acc acc' h
    simp only [collectParams] at h
    split at h
    · exact absurd h (by simp)
    · rename_i acc1 heq1
      split at h
      · exact absurd h (by simp)
      · rename_i acc2 heq2
        exact CPS_chain (fun g id => rfl)
          (CPS_chain (fun g id => rfl)
            (collectParams_ok_spec v acc acc1 heq1)
            (collectParams_ok_spec x acc1 acc2 heq2))
          (collectParams_ok_spec y acc2 acc' h)
  | .grid_gather v x y => by
    intro acc acc' h
    simp only [collectParams] at h
    split at h
    · exact absurd h (by simp)
    · rename_i acc1 heq1
      split at h
      · exact absurd h (by simp)
      · rename_i acc2 heq2
        exact CPS_chain (fun g id => rfl)
          (CPS_chain (fun g id => rfl)
            (collectParams_ok_spec v acc acc1 heq1)
            (collectParams_ok_spec x acc1 acc2 heq2))
          (collectParams_ok_spec y acc2 acc' h)
  | .stencil v r k => by
    intro acc acc' h
    simp only [collectParams] at h
    split at h
    · exact absurd h (by simp)
    · rename_i acc1 heq1
      exact CPS_chain (fun g id => rfl)
        (collectParams_ok_spec v acc acc1 heq1)
        (collectParamsK_ok_spec k acc1 acc' h)
  | .cat vs d => fun acc acc' h => collectParamsList_ok_spec vs acc acc' h

theorem collectParamsK_ok_spec :
    (k : KernelOpt) → ∀ acc acc', collectParamsK k acc = .ok acc' →
      CPS (fun g id => refParamK g id k) acc acc'
  | .none => by
    intro acc acc' h
    simp only [collectParamsK, Except.ok.injEq] at h
    subst h
    exact CPS_refl (fun g id => rfl) acc
  | .some src body => fun acc acc' h => collectParams_ok_spec body acc acc' h

theorem collectParamsList_ok_spec :
    (es : ExprList) → ∀ acc acc', collectParamsList es acc = .ok acc' →
      CPS (fun g id => refParamList g id es) acc acc'
  | .nil => by
    intro acc acc' h
    simp only [collectParamsList, Except.ok.injEq] at h
    subst h
    exact CPS_refl (fun g id => rfl) acc
  | .cons e t => by
    intro acc acc' h
    simp only [collectParamsList] at h
    split at h
    · exact absurd h (by simp)
    · rename_i acc1 heq1
      exact CPS_chain (fun g id => rfl)
        (collectParams_ok_spec e acc acc1 heq1)
        (collectParamsList_ok_spec t acc1 acc' h)

end

mutual

theorem collectParams_err_spec :
    (e : Expression) → ∀ acc er, collectParams e acc = .error er →
      CPE (fun g id => refParamB g id e) acc er
  | .ref_state _ => by intro acc er h; simp [collectParams] at h
  | .ref_aux _ => by intro acc er h; simp [collectParams] at h
  | .const _ => by intro acc er h; simp [collectParams] at h
  | .ref_param id0 group0 => by
    intro acc er h
    simp only [collectParams] at h
    split at h
    · rename_i hga
      simp only [Except.error.injEq] at h
      subst h
      exact ⟨group0, rfl, hga, id0, by simp [refParamB]⟩
    · exact absurd h (by simp)
  | .binop bk l r => by
    intro acc er h
    simp only [collectParams] at h
    split at h
    · rename_i heq1
      cases h
      exact CPE_mono (fun g id hp => by simp [refParamB, hp])
        (collectParams_err_spec l acc er heq1)
    · rename_i acc1 heq1
      exact CPE_chain (collectParams_ok_spec l acc acc1 heq1)
        (collectParams_err_spec r acc1 er h)
  | .whereOp c t f => by
    intro acc er h
    simp only [collectParams] at h
    split at h
    · rename_i heq1
      cases h
      exact CPE_mono (fun g id hp => by simp [refParamB, hp])
        (collectParams_err_spec c acc er heq1)
    · rename_i acc1 heq1
      split at h
      · rename_i heq2
        cases h
        exact CPE_mono (fun g id hp => by simp [refParamB, hp])
          (CPE_chain (collectParams_ok_spec c acc acc1 heq1)
            (collectParams_err_spec t acc1 er heq2))
      · rename_i acc2 heq2
        exact CPE_chain
          (CPS_chain (fun g id => rfl)
            (collectParams_ok_spec c acc acc1 heq1)
            (collectParams_ok_spec t acc1 acc2 heq2))
          (collectParams_err_spec f acc2 er h)
  | .unop uk v => fun acc er h => collectParams_err_spec v acc er h
  | .transpose v d0 d1 => fun acc er h => collectParams_err_spec v acc er h
  | .sum v d k => fun acc er h => collectParams_err_spec v acc er h
  | .slice v d s l => fun acc er h => collectParams_err_spec v acc er h
  | .grid_scatter v x y => by
    intro acc er h
    simp only [collectParams] at h
    split at h
    · rename_i heq1
      cases h
      exact CPE_mono (fun g id hp => by simp [refParamB, hp])
        (collectParams_err_spec v acc er heq1)
    · rename_i acc1 heq1
      split at h
      · rename_i heq2
        cases h
        exact CPE_mono (fun g id hp => by simp [refParamB, hp])
          (CPE_chain (collectParams_ok_spec v acc acc1 heq1)
            (collectParams_err_spec x acc1 er heq2))
      · rename_i acc2 heq2
        exact CPE_chain
          (CPS_chain (fun g id => rfl)
            (collectParams_ok_spec v acc acc1 heq1)
            (collectParams_ok_spec x acc1 acc2 heq2))
          (collectParams_err_spec y acc2 er h)
  | .grid_gather v x y => by
    intro acc er h
    simp only [collectParams] at h
    split at h
    · rename_i heq1
      cases h
      exact CPE_mono (fun g id hp => by simp [refParamB, hp])
        (collectParams_err_spec v acc er heq1)
    · rename_i acc1 heq1
      split at h
      · rename_i heq2
        cases h
        exact CPE_mono (fun g id hp => by simp [refParamB, hp])
          (CPE_chain (collectParams_ok_spec v acc acc1 heq1)
            (collectParams_err_spec x acc1 er heq2))
      · rename_i acc2 heq2
        exact CPE_chain
          (CPS_chain (fun g id => rfl)
            (collectParams_ok_spec v acc acc1 heq1)
            (collectParams_ok_spec x acc1 acc2 heq2))
          (collectParams_err_spec y acc2 er h)
  | .stencil v r k => by
    intro acc er h
    simp only [collectParams] at h
    split at h
    · rename_i heq1
      cases h
      exact CPE_mono (fun g id hp => by simp [refParamB, hp])
        (collectParams_err_spec v acc er heq1)
    · rename_i acc1 heq1
      exact CPE_chain (collectParams_ok_spec v acc acc1 heq1)
        (collectParamsK_err_spec k acc1 er h)
  | .cat vs d => fun acc er h => collectParamsList_err_spec vs acc er h

theorem collectParamsK_err_spec :
    (k : KernelOpt) → ∀ acc er, collectParamsK k acc = .error er →
      CPE (fun g id => refParamK g id k) acc er
  | .none => by intro acc er h; simp [collectParamsK] at h
  | .some src body => fun acc er h => collectParams_err_spec body acc er h

theorem collectParamsList_err_spec :
    (es : ExprList) → ∀ acc er, collectParamsList es acc = .error er →
      CPE (fun g id => refParamList g id es) acc er
  | .nil => by intro acc er h; simp [collectParamsList] at h
  | .cons e t => by
    intro acc er h
    simp only [collectParamsList] at h
    split at h
    · rename_i heq1
      cases h
      exact CPE_mono (fun g id hp => by simp [refParamList, hp])
        (collectParams_err_spec e acc er heq1)
    · rename_i acc1 heq1
      exact CPE_chain (collectParams_ok_spec e acc acc1 heq1)
        (collectParamsList_err_spec t acc1 er h)

end

theorem collectParamsRules_ok_spec :
    (rules : List DynamicsRule) → ∀ acc acc',
      collectParamsRules rules acc = .ok acc' →
      CPS (fun g id => refParamRules g id rules) acc acc'
  | [] => by
    intro acc acc' h
    simp only [collectParamsRules, Except.ok.injEq] at h
    subst h
    exact CPS_refl (fun g id => rfl) acc
  | r :: rs => by
    intro acc acc' h
    simp only [collectParamsRules] at h
    split at h
    · exact absurd h (by simp)
    · rename_i acc1 heq1
      exact CPS_chain (fun g id => rfl)
        (collectParams_ok_spec r.expr acc acc1 heq1)
        (collectParamsRules_ok_spec rs acc1 acc' h)

theorem collectParamsRules_err_spec :
    (rules : List DynamicsRule) → ∀ acc er,
      collectParamsRules rules acc = .error er →
      CPE (fun g id => refParamRules g id rules) acc er
  | [] => by intro acc er h; simp [collectParamsRules] at h
  | r :: rs => by
    intro acc er h
    simp only [collectParamsRules] at h
    split at h
    · rename_i heq1
      cases h
      exact CPE_mono (fun g id hp => by simp [refParamRules, hp])
        (collectParams_err_spec r.expr acc er heq1)
    · rename_i acc1 heq1
      exact CPE_chain (collectParams_ok_spec r.expr acc acc1 heq1)
        (collectParamsRules_err_spec rs acc1 er h)

theorem sortParamsLoop_not_mem :
    (pp : ParamsAcc) → ∀ groups g, g ∉ pp.map Prod.fst →
      getAssoc (sortParamsLoop pp groups) g = getAssoc groups g
  | [] => by intro groups g _; rfl
  | (g0, l0) :: t => by
      intro groups g hg
      simp only [List.map_cons, List.mem_cons] at hg
      push_neg at hg
      cases hg0 : getAssoc groups g0 with
      | some gir =>
        simp only [sortParamsLoop, hg0]
        rw [sortParamsLoop_not_mem t _ g hg.2,
          getAssoc_setAssoc_other groups g0 g _ hg.1]
      | none =>
        simp only [sortParamsLoop, hg0]
        exact sortParamsLoop_not_mem t groups g hg.2

theorem sortParamsLoop_none :
    (pp : ParamsAcc) → ∀ groups g, getAssoc groups g = Option.none →
      getAssoc (sortParamsLoop pp groups) g = Option.none
  | [] => by intro groups g h; exact h
  | (g0, l0) :: t => by
      intro groups g h
      cases hg0 : getAssoc groups g0 with
      | some gir =>
        simp only [sortParamsLoop, hg0]
        refine sortParamsLoop_none t _ g ?_
        have hne : g ≠ g0 := by
          intro hc
          subst hc
          rw [h] at hg0
          cases hg0
        rw [getAssoc_setAssoc_other groups g0 g _ hne]
        exact h
      | none =>
        simp only [sortParamsLoop, hg0]
        exact sortParamsLoop_none t groups g h

theorem sortParamsLoop_mem :
    (pp : ParamsAcc) → ∀ groups g l gir, (pp.map Prod.fst).Nodup →
      getAssoc pp g = Option.some l → getAssoc groups g = Option.some gir →
      getAssoc (sortParamsLoop pp groups) g =
        Option.some ⟨gir.activation, sortStrings l⟩
  | [] => by intro groups g l gir _ h; simp [getAssoc] at h
  | (g0, l0) :: t => by
      intro groups g l gir hnd hpp hgr
      simp only [List.map_cons, List.nodup_cons] at hnd
      simp only [getAssoc] at hpp
      split at hpp
      · rename_i heq
        subst heq
        cases hpp
        simp only [sortParamsLoop, hgr]
        rw [sortParamsLoop_not_mem t _ _ hnd.1, getAssoc_setAssoc_self]
      · rename_i hne
        cases hg0 : getAssoc groups g0 with
        | some gir0 =>
          simp only [sortParamsLoop, hg0]
          refine sortParamsLoop_mem t _ g l gir hnd.2 hpp ?_
          rw [getAssoc_setAssoc_other groups g0 g _ (fun hc => hne hc.symm)]
          exact hgr
        | none =>
          simp only [sortParamsLoop, hg0]
          exact sortParamsLoop_mem t groups g l gir hnd.2 hpp hgr

theorem pp0_keys (pg : ParameterGroups) :
    (setAssoc (setAssoc ([] : ParamsAcc) pg.ATTR.name [])
      pg.PHYS.name []).map Prod.fst =
      if pg.ATTR.name = pg.PHYS.name then [pg.ATTR.name]
      else [pg.ATTR.name, pg.PHYS.name] := by
  by_cases h : pg.ATTR.name = pg.PHYS.name
  · simp [setAssoc, h]
  · simp [setAssoc, h]

theorem pp0_lookup (pg : ParameterGroups) (g : String) (l : List String)
    (h : getAssoc (setAssoc (setAssoc ([] : ParamsAcc) pg.ATTR.name [])
      pg.PHYS.name []) g = Option.some l) :
    l = [] ∧ (g = pg.ATTR.name ∨ g = pg.PHYS.name) := by
  by_cases hap : pg.ATTR.name = pg.PHYS.name
  · simp only [setAssoc, hap, if_pos rfl] at h
    simp only [getAssoc] at h
    split at h
    · rename_i heq
      cases h
      exact ⟨rfl, Or.inr heq.symm⟩
    · cases h
  · simp only [setAssoc, if_neg hap] at h
    simp only [getAssoc] at h
    split at h
    · rename_i heq
      cases h
      exact ⟨rfl, Or.inl heq.symm⟩
    · split at h
      · rename_i heq
        cases h
        exact ⟨rfl, Or.inr heq.symm⟩
      · cases h

theorem groups0_nonempty_of_pp0 (pg : ParameterGroups) (g : String)
    (hmem : g = pg.ATTR.name ∨ g = pg.PHYS.name) :
    ∃ gir0, getAssoc (setAssoc (setAssoc [] pg.ATTR.name
        (⟨pg.ATTR.activation, []⟩ : GroupIR))
      pg.PHYS.name ⟨pg.PHYS.activation, []⟩) g = Option.some gir0 := by
  by_cases hap : pg.ATTR.name = pg.PHYS.name
  · rcases hmem with rfl | rfl
    · rw [hap]
      exact ⟨_, getAssoc_setAssoc_self _ _ _⟩
    · exact ⟨_, getAssoc_setAssoc_self _ _ _⟩
  · rcases hmem with rfl | rfl
    · rw [getAssoc_setAssoc_other _ pg.PHYS.name pg.ATTR.name _ hap]
      exact ⟨_, getAssoc_setAssoc_self _ _ _⟩
    · exact ⟨_, getAssoc_setAssoc_self _ _ _⟩

theorem pp0_some_of_mem (pg : ParameterGroups) (g : String)
    (hmem : g = pg.ATTR.name ∨ g = pg.PHYS.name) :
    getAssoc (setAssoc (setAssoc ([] : ParamsAcc) pg.ATTR.name [])
      pg.PHYS.name []) g = Option.some [] := by
  by_cases hap : pg.ATTR.name = pg.PHYS.name
  · rcases hmem with rfl | rfl
    · rw [hap]
      exact getAssoc_setAssoc_self _ _ _
    · exact getAssoc_setAssoc_self _ _ _
  · rcases hmem with rfl | rfl
    · rw [getAssoc_setAssoc_other _ pg.PHYS.name pg.ATTR.name _ hap]
      exact getAssoc_setAssoc_self _ _ _
    · exact getAssoc_setAssoc_self _ _ _

theorem refParamRules_exists :
    (rules : List DynamicsRule) → ∀ g id, refParamRules g id rules = true →
      ∃ r, r ∈ rules ∧ refParamB g id r.expr = true
  | [] => by intro g id h; simp [refParamRules] at h
  | r :: rs => by
      intro g id h
      simp only [refParamRules, Bool.or_eq_true] at h
      rcases h with h | h
      · exact ⟨r, by simp, h⟩
      · obtain ⟨r2, hr2, h2⟩ := refParamRules_exists rs g id h
        exact ⟨r2, by simp [hr2], h2⟩

theorem refParamRules_of_mem :
    (rules : List DynamicsRule) → ∀ g id r, r ∈ rules →
      refParamB g id r.expr = true → refParamRules g id rules = true
  | [] => by intro g id r hr; cases hr
  | r0 :: rs => by
      intro g id r hr href
      rcases List.mem_cons.mp hr with rfl | hr2
      · simp [refParamRules, href]
      · simp [refParamRules, refParamRules_of_mem rs g id r hr2 href]

/-- C6: in a successful compilation, each group's `params` list in the
output IR is precisely the set of parameter ids referenced by `ref_param`
nodes citing that group — including references occurring only inside a
stencil's `kernel(center, neighbor)` expansion — sorted lexicographically
and duplicate-free; and a `ref_param` citing a group not defined in
`PARAMETER_GROUPS` aborts compilation with an `unknownGroup` error naming a
group that is referenced and undefined. -/
theorem group_params_sorted_complete
    (rules : List DynamicsRule) (order : List String) (consts : SimConstants)
    (pg : ParameterGroups) (bc : List BoundaryCondition)
    (init : InitializationIR) (gc : Option GridConfig) :
    (∀ ir, compileRules rules order consts pg bc init gc = .ok ir →
      ∀ g gir, getAssoc ir.groups g = Option.some gir →
        gir.params.Sorted strLe ∧ gir.params.Nodup ∧
        (∀ id, id ∈ gir.params ↔ refParamRules g id rules = true)) ∧
    (∀ gbad idbad r, r ∈ rules → refParamB gbad idbad r.expr = true →
      gbad ≠ pg.ATTR.name → gbad ≠ pg.PHYS.name →
      ∃ gu, gu ≠ pg.ATTR.name ∧ gu ≠ pg.PHYS.name ∧
        (∃ idu ru, ru ∈ rules ∧ refParamB gu idu ru.expr = true) ∧
        compileRules rules order consts pg bc init gc =
          .error (.unknownGroup gu)) := by
  constructor
  · intro ir h g gir hg
    simp only [compileRules] at h
    split at h
    · exact absurd h (by simp)
    · rename_i pp hpp
      split at h
      · exact absurd h (by simp)
      · rename_i ctx1 heq1
        split at h
        · exact absurd h (by simp)
        · rename_i ctx2 heq2
          split at h
          · exact absurd h (by simp)
          · simp only [Except.ok.injEq] at h
            subst h
            simp only at hg
            have hspec := collectParamsRules_ok_spec rules _ pp hpp
            -- g must be a key of groups0 (else the lookup would be none)
            have hgr0 : ∃ gir0, getAssoc (setAssoc (setAssoc []
                pg.ATTR.name (⟨pg.ATTR.activation, []⟩ : GroupIR))
                pg.PHYS.name ⟨pg.PHYS.activation, []⟩) g =
                Option.some gir0 := by
              cases hnn : getAssoc (setAssoc (setAssoc []
                  pg.ATTR.name (⟨pg.ATTR.activation, []⟩ : GroupIR))
                  pg.PHYS.name ⟨pg.PHYS.activation, []⟩) g with
              | none =>
                rw [sortParamsLoop_none pp _ g hnn] at hg
                cases hg
              | some gir0 => exact ⟨gir0, rfl⟩
            obtain ⟨gir0, hgir0⟩ := hgr0
            -- g is a key of pp (same keys as pp0), with value l
            have hppkeys := hspec.1
            have hg_in_pp0 : (getAssoc (setAssoc (setAssoc
                ([] : ParamsAcc) pg.ATTR.name []) pg.PHYS.name [])
                g).isSome = true := by
              rw [getAssoc_isSome_iff]
              by_cases hap : pg.ATTR.name = pg.PHYS.name
              · rw [pp0_keys pg, if_pos hap]
                -- groups0 then has the single key PHYS.name = ATTR.name
                obtain ⟨hl, hmem⟩ : True ∧ (g = pg.ATTR.name ∨ g = pg.PHYS.name) := by
                  refine ⟨trivial, ?_⟩
                  -- from hgir0: lookup in groups0 succeeded
                  by_contra hc
                  push_neg at hc
                  have : getAssoc (setAssoc (setAssoc []
                      pg.ATTR.name (⟨pg.ATTR.activation, []⟩ : GroupIR))
                      pg.PHYS.name ⟨pg.PHYS.activation, []⟩) g =
                      Option.none := by
                    rw [getAssoc_setAssoc_other _ _ _ _ hc.2,
                      getAssoc_setAssoc_other _ _ _ _ hc.1]
                    rfl
                  rw [this] at hgir0
                  cases hgir0
                simp only [List.mem_singleton]
                rcases hmem with rfl | rfl
                · rfl
                · exact hap.symm
              · rw [pp0_keys pg, if_neg hap]
                by_contra hc
                simp only [List.mem_cons, List.not_mem_nil, or_false,
                  not_or] at hc
                have : getAssoc (setAssoc (setAssoc []
                    pg.ATTR.name (⟨pg.ATTR.activation, []⟩ : GroupIR))
                    pg.PHYS.name ⟨pg.PHYS.activation, []⟩) g =
                    Option.none := by
                  rw [getAssoc_setAssoc_other _ _ _ _ hc.2,
                    getAssoc_setAssoc_other _ _ _ _ hc.1]
                  rfl
                rw [this] at hgir0
                cases hgir0
            have hg_in_pp : (getAssoc pp g).isSome = true := by
              rw [getAssoc_isSome_iff, hppkeys, ← getAssoc_isSome_iff]
              exact hg_in_pp0
            obtain ⟨l, hl⟩ : ∃ l, getAssoc pp g = Option.some l := by
              cases hh : getAssoc pp g with
              | none => rw [hh] at hg_in_pp; cases hg_in_pp
              | some w => exact ⟨w, rfl⟩
            -- characterize l from the pp0 base value []
            have hbase : getAssoc (setAssoc (setAssoc ([] : ParamsAcc)
                pg.ATTR.name []) pg.PHYS.name []) g = Option.some [] := by
              apply pp0_some_of_mem
              rw [getAssoc_isSome_iff, pp0_keys pg] at hg_in_pp0
              by_cases hap : pg.ATTR.name = pg.PHYS.name
              · rw [if_pos hap] at hg_in_pp0
                simp only [List.mem_singleton] at hg_in_pp0
                exact Or.inl hg_in_pp0
              · rw [if_neg hap] at hg_in_pp0
                simpa using hg_in_pp0
            obtain ⟨hiff, hnodup⟩ := hspec.2.1 g [] l hbase hl
            -- pp keys are duplicate-free
            have hppnd : (pp.map Prod.fst).Nodup := by
              rw [hppkeys, pp0_keys pg]
              by_cases hap : pg.ATTR.name = pg.PHYS.name
              · simp [hap]
              · simp [hap]
            -- the final lookup
            have hfin := sortParamsLoop_mem pp _ g l gir0 hppnd hl hgir0
            rw [hfin] at hg
            cases hg
            refine ⟨sortStrings_sorted l, sortStrings_nodup (hnodup
              List.nodup_nil), ?_⟩
            intro id
            rw [(sortStrings_perm l).mem_iff, hiff id]
            simp
  · intro gbad idbad r hr href hna hnp
    cases hcp : collectParamsRules rules (setAssoc (setAssoc
        ([] : ParamsAcc) pg.ATTR.name []) pg.PHYS.name []) with
    | ok pp =>
      exfalso
      have hspec := collectParamsRules_ok_spec rules _ pp hcp
      have hknown := hspec.2.2 gbad idbad
        (refParamRules_of_mem rules gbad idbad r hr href)
      rw [getAssoc_isSome_iff, pp0_keys pg] at hknown
      by_cases hap : pg.ATTR.name = pg.PHYS.name
      · rw [if_pos hap] at hknown
        simp only [List.mem_singleton] at hknown
        exact hna hknown
      · rw [if_neg hap] at hknown
        simp only [List.mem_cons, List.not_mem_nil, or_false] at hknown
        rcases hknown with h | h
        · exact hna h
        · exact hnp h
    | error er =>
      obtain ⟨gu, herq, hnone, idu, hrefu⟩ :=
        collectParamsRules_err_spec rules _ er hcp
      subst herq
      have hgukeys : gu ∉ (setAssoc (setAssoc ([] : ParamsAcc)
          pg.ATTR.name []) pg.PHYS.name []).map Prod.fst :=
        (getAssoc_eq_none_iff _ gu).mp hnone
      rw [pp0_keys pg] at hgukeys
      have hgAP : gu ≠ pg.ATTR.name ∧ gu ≠ pg.PHYS.name := by
        by_cases hap : pg.ATTR.name = pg.PHYS.name
        · rw [if_pos hap] at hgukeys
          simp only [List.mem_singleton] at hgukeys
          exact ⟨hgukeys, fun hc => hgukeys (hc.trans hap.symm)⟩
        · rw [if_neg hap] at hgukeys
          simp only [List.mem_cons, List.not_mem_nil, or_false,
            not_or] at hgukeys
          exact hgukeys
      obtain ⟨ru, hru, hrefu'⟩ := refParamRules_exists rules gu idu hrefu
      exact ⟨gu, hgAP.1, hgAP.2, ⟨idu, ru, hru, hrefu'⟩,
        by simp [compileRules, hcp]⟩

/-- Bundle for the C6 witness: group `physics` is cited by `b`, `a` and —
only inside the stencil kernel — `k`; group `attributes` by `m`. -/
def c6Rules : List DynamicsRule :=
  [⟨"x", ops.add
      (ops.mul (ops.param "b" "physics") (ops.param "a" "physics"))
      (ops.mul (ops.param "m" "attributes")
        (.stencil (ops.state "x") 1
          (.some "(c, n) => c * k"
            (ops.mul (ops.aux "center") (ops.param "k" "physics")))))⟩]

/-- Its compiled IR. -/
def c6IR : OutputIR :=
  okOr (compileRules c6Rules ["x"] stdConsts stdGroups []
    ⟨[("x", .const 0)], .normal 0 1⟩ Option.none) default

/-- Witness for C6 at a concrete input: the `physics` group's params come
out as the sorted, duplicate-free set `[a, b, k]` — `k` collected from
inside the kernel — matching exactly the referenced ids. -/
theorem group_params_sorted_complete_witness :
    (⟨Activation.tanh, ["a", "b", "k"]⟩ : GroupIR).params.Sorted strLe ∧
    (⟨Activation.tanh, ["a", "b", "k"]⟩ : GroupIR).params.Nodup ∧
    (∀ id, id ∈ (⟨Activation.tanh, ["a", "b", "k"]⟩ : GroupIR).params ↔
      refParamRules "physics" id c6Rules = true) :=
  (group_params_sorted_complete c6Rules ["x"] stdConsts stdGroups []
    ⟨[("x", .const 0)], .normal 0 1⟩ Option.none).1 c6IR rfl "physics"
    ⟨Activation.tanh, ["a", "b", "k"]⟩ rfl

end Evolimo
